import Mathlib

/-!
Verification development for the Scrapify job-scraper repository
(`src/main/main.py` plus the per-site modules under `src/main/parsers/`).

The development shallowly embeds:

* the per-site listing adapters (`lever_listing_parser`,
  `mimic_listing_parser`, `hexagon_robotics_listing_parser`,
  `flexion_listing_parser`, `flyability_listing_parser`,
  `leica_listing_parser`, `anybotics_listing_parser`, and the
  `listing_parser` functions of `parsers/rivr.py`, `parsers/gravis_robotics.py`
  and `parsers/flexion_robotics.py`) over a small HTML document model;
* the worker pipeline `Worker.run`, with the network fetches and the
  detail-parser invocations abstracted as per-company oracles
  (`Except`-valued functions standing for `requests.get` +
  `raise_for_status` and for `cfg["detail_parser"](detail_soup)`);
* the Excel record sink (the `openpyxl` tail of `Worker.run`), with a
  worksheet modelled as a list of rows of optional cell values.

Python `int(e)` over the nonnegative float expressions appearing in the
progress accounting is modelled as exact rational arithmetic followed by
truncation; since every such expression is a nonnegative fraction of
naturals, each is written below as a natural-number division
(`int((idx / total) * 80)` becomes `80 * idx / total`, and so on), which
is the floor of the exact value.  Python strings are modelled by `String`
with character-list based helper functions mirroring `str.strip`,
`str.lower`, `str.isprintable`, `in`, `startswith` and `len`.
-/

/-! ## Character and string helpers -/

/-- Characters `openpyxl` refuses to store in a cell
(`ILLEGAL_CHARACTERS_RE = [\000-\010\013\014\016-\037]`): the C0 control
characters other than tab, newline and carriage return.  Writing a string
containing one of these raises `IllegalCharacterError`. -/
def illegalChar (c : Char) : Bool :=
  c.toNat ≤ 8 || c.toNat == 11 || c.toNat == 12 || (14 ≤ c.toNat && c.toNat ≤ 31)

/-- Does the string contain a character the xlsx format cannot represent? -/
def hasIllegal (s : String) : Bool :=
  s.toList.any illegalChar

/-- Model of Python `str.isprintable` for one character: control characters
(C0, DEL, C1) and the soft hyphen are not printable; the model treats all
remaining characters as printable (the further Unicode separator/format
categories Python also rejects play no role in the properties below, which
only depend on the fact that every `illegalChar` is non-printable). -/
def pyPrintable (c : Char) : Bool :=
  !(c.toNat < 32 || (127 ≤ c.toNat && c.toNat ≤ 160) || c.toNat == 173)

/-- Model of `"".join(c for c in s if c.isprintable())` from the sink's
`IllegalCharacterError` handler. -/
def stripNonPrintable (s : String) : String :=
  String.mk (s.toList.filter pyPrintable)

/-- Whitespace characters removed by Python `str.strip()` (the ASCII ones;
the exotic Unicode space classes are irrelevant to the claims). -/
def pySpace (c : Char) : Bool :=
  c == ' ' || c == '\t' || c == '\n' || c == '\r' ||
    c.toNat == 11 || c.toNat == 12

/-- Model of Python `str.strip()`. -/
def pyStrip (s : String) : String :=
  String.mk (((s.toList.dropWhile pySpace).reverse.dropWhile pySpace).reverse)

/-- ASCII lower-casing of one character, as Python `str.lower` acts on the
ASCII range (the only range the adapters' keyword tests exercise). -/
def lowerChar (c : Char) : Char :=
  if 'A' ≤ c && c ≤ 'Z' then Char.ofNat (c.toNat + 32) else c

/-- Model of Python `str.lower()`. -/
def pyLower (s : String) : String :=
  String.mk (s.toList.map lowerChar)

/-- Model of Python `len(s)`. -/
def pyLen (s : String) : Nat :=
  s.toList.length

/-- Helper for substring search: does `needle` occur inside the haystack? -/
def containsAux (needle : List Char) : List Char → Bool
  | [] => needle.isEmpty
  | c :: t => needle.isPrefixOf (c :: t) || containsAux needle t

/-- Model of Python `needle in hay` on strings. -/
def strContains (hay needle : String) : Bool :=
  containsAux needle.toList hay.toList

/-- Model of Python `s.startswith(p)`. -/
def strStarts (s p : String) : Bool :=
  p.toList.isPrefixOf s.toList

/-- Model of Python `s[1:]`. -/
def strDropOne (s : String) : String :=
  String.mk (s.toList.drop 1)

example : pyStrip "  ab c\n" = "ab c" := by decide
example : strContains "xx/jobs/1" "/jobs/" = true := by decide
example : strStarts "https://x" "http" = true := by decide
example : pyLower "AbC" = "abc" := by decide
example : stripNonPrintable "a\x00b" = "ab" := by decide

/-! ## HTML document model

`bs4.BeautifulSoup` documents are modelled as a tree of element nodes
(tag, class list, attributes, children) and text nodes.  `find_all` /
`find` search the descendants of a node in document (preorder) order;
`find_parent` walks the ancestor chain; `get_text(strip=True)` joins the
stripped non-empty text fragments. -/

inductive Node where
  | elem (tag : String) (classes : List String) (attrs : List (String × String)) (children : List Node)
  | txt (s : String)

/-- Tag of an element node. -/
def Node.tagOf : Node → Option String
  | .elem t _ _ _ => some t
  | .txt _ => none

/-- Does the node carry the given CSS class (bs4 `class_=cls` match)? -/
def Node.hasClass (cls : String) : Node → Bool
  | .elem _ cs _ _ => cs.contains cls
  | .txt _ => false

/-- Attribute lookup, bs4 `node.get(key)` / `node[key]`. -/
def Node.attr (key : String) : Node → Option String
  | .elem _ _ as _ => (as.find? (fun kv => kv.1 == key)).map (·.2)
  | .txt _ => none

mutual
/-- All descendants of a node (excluding the node itself), preorder. -/
def Node.descendants : Node → List Node
  | .txt _ => []
  | .elem _ _ _ cs => descendantsList cs

/-- All members of the list together with their descendants, preorder. -/
def descendantsList : List Node → List Node
  | [] => []
  | n :: ns => n :: (Node.descendants n ++ descendantsList ns)
end

mutual
/-- Descendants paired with their ancestor chains (nearest ancestor first),
used to model bs4 `find_parent`. -/
def Node.descWithAnc (anc : List Node) : Node → List (Node × List Node)
  | .txt _ => []
  | .elem t c a cs => descWithAncList (Node.elem t c a cs :: anc) cs

/-- List version of `Node.descWithAnc`. -/
def descWithAncList (anc : List Node) : List Node → List (Node × List Node)
  | [] => []
  | n :: ns => (n, anc) :: (Node.descWithAnc anc n ++ descWithAncList anc ns)
end

mutual
/-- Raw text fragments below a node, document order. -/
def Node.fragments : Node → List String
  | .txt s => [s]
  | .elem _ _ _ cs => fragmentsList cs

/-- List version of `Node.fragments`. -/
def fragmentsList : List Node → List String
  | [] => []
  | n :: ns => Node.fragments n ++ fragmentsList ns
end

/-- bs4 `node.get_text(strip=True)`: stripped non-empty fragments joined. -/
def Node.getTextStrip (n : Node) : String :=
  String.join (((n.fragments).map pyStrip).filter (fun s => s ≠ ""))

/-- bs4 `node.text` (no stripping, fragments concatenated). -/
def Node.rawText (n : Node) : String :=
  String.join n.fragments

/-- Predicate for bs4 `find_all(tag)` / `find(tag)`. -/
def isTag (tag : String) (n : Node) : Bool :=
  n.tagOf == some tag

/-- Predicate for bs4 `find_all(tag, class_=cls)`. -/
def isTagClass (tag cls : String) (n : Node) : Bool :=
  isTag tag n && n.hasClass cls

/-- Predicate for bs4 `find_all("a", href=True)`. -/
def isAnchorHref (n : Node) : Bool :=
  isTag "a" n && (n.attr "href").isSome

/-- bs4 `soup.find_all(tag, class_=cls)`. -/
def findAllTagClass (root : Node) (tag cls : String) : List Node :=
  root.descendants.filter (isTagClass tag cls)

/-- bs4 `soup.find_all(tag)`. -/
def findAllTag (root : Node) (tag : String) : List Node :=
  root.descendants.filter (isTag tag)

/-- bs4 `soup.find(tag)` (first matching descendant). -/
def findTag (root : Node) (tag : String) : Option Node :=
  root.descendants.find? (isTag tag)

/-- bs4 `soup.find_all("a", href=True)`. -/
def anchorsWithHref (root : Node) : List Node :=
  root.descendants.filter isAnchorHref

/-! ## Listing adapters

Each adapter is `extract_listings`: a function from a parsed listing-page
document to an ordered list of `(title, detail_url)` pairs.  The Python
loops of the form `jobs = []; for x in …: …; jobs.append(…)` are written
as a left fold appending the per-iteration contribution (`accumFold`),
and the two adapters that keep a `seen` set are written as the same fold
followed by / combined with the order-preserving `dedupBy`. -/

/-- A `(title, detail_url)` pair as produced by the listing adapters. -/
abbrev Job := String × String

/-- Accumulation loop `for x in l: jobs += step x` starting from `[]`. -/
def accumFold (step : α → List β) (l : List α) : List β :=
  l.foldl (fun acc x => acc ++ step x) []

/-- Order-preserving de-duplication by a key, modelling the
`seen`-set guards (`if key not in seen: seen.add(key); out.append(job)`). -/
def dedupBy (key : Job → String) (l : List Job) : List Job :=
  (l.foldl (fun st j => if key j ∈ st.1 then st else (key j :: st.1, st.2 ++ [j]))
    (([] : List String), ([] : List Job))).2

/-- Loop body of `lever_listing_parser` (src/main/main.py:42-53), one
`div.posting` container: take the first `h5` descendant's text as title and
the `a.posting-title` descendant's `href`, skipping the container when the
title element or the link (or its `href`) is missing or the `href` is the
empty string (falsy in Python). -/
def leverStep (post : Node) : List Job :=
  match findTag post "h5" with
  | none => []
  | some titleElem =>
    let title := pyStrip titleElem.rawText
    match post.descendants.find? (isTagClass "a" "posting-title") with
    | none => []
    | some link =>
      match link.attr "href" with
      | none => []
      | some h => if h = "" then [] else [(title, h)]

/-- Embedding of `lever_listing_parser` (src/main/main.py:42-53).  The
`listing_parser` functions in `src/main/parsers/rivr.py` and
`src/main/parsers/gravis_robotics.py` are character-for-character the same
code and are embedded by the aliases below. -/
def lever_listings (soup : Node) : List Job :=
  accumFold leverStep (findAllTagClass soup "div" "posting")

/-- Embedding of `listing_parser` in src/main/parsers/rivr.py (identical
code to `lever_listing_parser`). -/
def rivr_listings : Node → List Job := lever_listings

/-- Embedding of `listing_parser` in src/main/parsers/gravis_robotics.py
(identical code to `lever_listing_parser`). -/
def gravis_listings : Node → List Job := lever_listings

/-- URL resolution inline in `mimic_listing_parser` (src/main/main.py:116):
`href if href.startswith("http") else "https://www.mimicrobotics.com" + href`. -/
def mimicResolve (href : String) : String :=
  if strStarts href "http" then href else "https://www.mimicrobotics.com" ++ href

/-- Loop body of `mimic_listing_parser` (src/main/main.py:110-116). -/
def mimicStep (a : Node) : List Job :=
  match a.attr "href" with
  | none => []
  | some href =>
    if ["/jobs/", "/careers/", "/job/"].any (fun kw => strContains (pyLower href) kw) then
      let title := a.getTextStrip
      if title ≠ "" && pyLen title > 3 then [(title, mimicResolve href)] else []
    else []

/-- Embedding of `mimic_listing_parser` (src/main/main.py:106-117). -/
def mimic_listings (soup : Node) : List Job :=
  accumFold mimicStep (anchorsWithHref soup)

/-- URL resolution inline in `hexagon_robotics_listing_parser`
(src/main/main.py:180). -/
def hexagonResolve (url : String) : String :=
  if strStarts url "http" then url else "https://robotics.hexagon.com" ++ url

/-- Loop body of `hexagon_robotics_listing_parser`
(src/main/main.py:174-180), one `h5`: its first `a[href]` descendant. -/
def hexagonStep (h5 : Node) : List Job :=
  match h5.descendants.find? isAnchorHref with
  | none => []
  | some a =>
    let title := a.getTextStrip
    match a.attr "href" with
    | none => []
    | some url =>
      if title ≠ "" && url ≠ "" then [(title, hexagonResolve url)] else []

/-- Embedding of `hexagon_robotics_listing_parser` (src/main/main.py:171-181). -/
def hexagon_listings (soup : Node) : List Job :=
  accumFold hexagonStep (findAllTag soup "h5")

/-- URL resolution of `flexion_listing_parser` (src/main/main.py:215-223):
`./x` becomes origin + `x`-without-the-dot, `/x` becomes origin + `/x`,
a bare href becomes origin + `/` + href, anything starting with `http`
passes through. -/
def flexionResolve (href : String) : String :=
  if strStarts href "./" then "https://flexion.ai" ++ strDropOne href
  else if strStarts href "/" then "https://flexion.ai" ++ href
  else if !strStarts href "http" then "https://flexion.ai/" ++ href
  else href

/-- Loop body of `flexion_listing_parser` (src/main/main.py:204-227), one
`h5` together with its ancestor chain: link is the first `a[href]`
descendant, else the nearest `a[href]` ancestor (`find_parent`); yields the
candidate pair when title and url are non-empty (the `seen` check is the
`dedupBy` wrapper in `flexion_listings`). -/
def flexionStep (p : Node × List Node) : List Job :=
  let aOpt :=
    match p.1.descendants.find? isAnchorHref with
    | some a => some a
    | none => p.2.find? isAnchorHref
  match aOpt with
  | none => []
  | some a =>
    let title := p.1.getTextStrip
    match a.attr "href" with
    | none => []
    | some href =>
      let url := flexionResolve href
      if title ≠ "" && url ≠ "" then [(title, url)] else []

/-- Embedding of `flexion_listing_parser` (src/main/main.py:201-228): the
single source loop that extracts candidates and skips urls already in
`seen` is split into candidate extraction (`flexionStep` over the `h5`
elements) followed by the order-preserving `dedupBy` on the url, which
performs the identical `seen`-set filtering. -/
def flexion_listings (soup : Node) : List Job :=
  dedupBy Prod.snd (accumFold flexionStep ((Node.descWithAnc [] soup).filter (fun p => isTag "h5" p.1)))

/-- URL resolution of `listing_parser` in src/main/parsers/flexion_robotics.py
(lines 23-24): a non-`http` href gets the origin prefixed, with a `/`
inserted when the href does not itself start with `/`. -/
def flexionFileResolve (href : String) : String :=
  if !strStarts href "http" then
    "https://flexion.ai" ++ (if strStarts href "/" then href else "/" ++ href)
  else href

/-- Loop body of `listing_parser` in src/main/parsers/flexion_robotics.py
(lines 12-28), one heading (`h1`-`h6`) with its ancestor chain: the link is
the nearest `a[href]` ancestor (`find_parent`) or else the first `a[href]`
descendant; headings with an empty or shorter-than-8-characters title are
skipped. -/
def flexionFileStep (p : Node × List Node) : List Job :=
  let aOpt :=
    match p.2.find? isAnchorHref with
    | some a => some a
    | none => p.1.descendants.find? isAnchorHref
  match aOpt with
  | none => []
  | some a =>
    let title := p.1.getTextStrip
    if title = "" || pyLen title < 8 then []
    else
      match a.attr "href" with
      | none => []
      | some href => [(title, flexionFileResolve href)]

/-- Heading predicate for `soup.find_all(['h1',…,'h6'])`. -/
def isHeading (n : Node) : Bool :=
  ["h1", "h2", "h3", "h4", "h5", "h6"].any (fun t => isTag t n)

/-- Embedding of `listing_parser` in src/main/parsers/flexion_robotics.py
(lines 3-30); as for `flexion_listings`, the inline `seen_urls` filtering of
the single source loop is the trailing `dedupBy` on the url. -/
def flexionFile_listings (soup : Node) : List Job :=
  dedupBy Prod.snd (accumFold flexionFileStep ((Node.descWithAnc [] soup).filter (fun p => isHeading p.1)))

/-- URL resolution inline in `flyability_listing_parser`
(src/main/main.py:258). -/
def flyabilityResolve (href : String) : String :=
  if strStarts href "http" then href else "https://www.flyability.com" ++ href

/-- Loop body of the collection loop of `flyability_listing_parser`
(src/main/main.py:251-259): anchors whose href contains one of the job-path
keywords, with titles longer than 3 characters not containing a skip word. -/
def flyabilityStep (a : Node) : List Job :=
  match a.attr "href" with
  | none => []
  | some href =>
    if ["/career/", "/careers/", "/job/", "/position/"].any
        (fun kw => strContains (pyLower href) kw) then
      let title := a.getTextStrip
      if title ≠ "" && pyLen title > 3 &&
          !(["open position", "back", "apply", "see all", "view all"].any
            (fun skip => strContains (pyLower title) skip)) then
        [(title, flyabilityResolve href)]
      else []
    else []

/-- Embedding of `flyability_listing_parser` (src/main/main.py:248-267):
the collection loop followed by the second, de-duplicate-by-title loop
(src/main/main.py:261-266), which is exactly `dedupBy` on the title. -/
def flyability_listings (soup : Node) : List Job :=
  dedupBy Prod.fst (accumFold flyabilityStep (anchorsWithHref soup))

/-- One job object of a JSON API response, for the two adapters that call a
Workable/Hexagon API instead of parsing the page. -/
structure ApiJob where
  title : String
  url : String

/-- Embedding of `anybotics_listing_parser` (src/main/main.py:67-90).  The
`requests.get(api_url)…resp.json()` block is abstracted as an oracle: `.ok
jobsData` stands for a successful API round-trip delivering
`data.get("jobs", [])`, `.error` for any exception raised inside the `try`
(in which case the code returns `[]`). -/
def anybotics_listings (api : Except String (List ApiJob)) (_soup : Node) : List Job :=
  match api with
  | .error _ => []
  | .ok jobsData =>
    accumFold (fun (j : ApiJob) =>
      let title := pyStrip j.title
      let url := pyStrip j.url
      if title ≠ "" && url ≠ "" then [(title, url)] else []) jobsData

/-- URL resolution inline in the HTML fallback of `leica_listing_parser`
(src/main/main.py:155). -/
def leicaResolve (href : String) : String :=
  if strStarts href "http" then href else "https://leica-geosystems.com" ++ href

/-- Loop body of the HTML fallback of `leica_listing_parser`
(src/main/main.py:150-155). -/
def leicaStep (a : Node) : List Job :=
  match a.attr "href" with
  | none => []
  | some href =>
    if strContains (pyLower href) "job" &&
        (strContains (pyLower href) "leica" || strContains (pyLower href) "hexagon") then
      let title := a.getTextStrip
      if title ≠ "" && pyLen title > 3 then [(title, leicaResolve href)] else []
    else []

/-- Embedding of `leica_listing_parser` (src/main/main.py:132-156), with
the API call abstracted as for `anybotics_listings`; on an API failure the
code scans the static HTML for job links. -/
def leica_listings (api : Except String (List ApiJob)) (soup : Node) : List Job :=
  match api with
  | .ok jobsData =>
    accumFold (fun (j : ApiJob) =>
      let title := pyStrip j.title
      let url := pyStrip j.url
      if title ≠ "" && url ≠ "" then [(title, url)] else []) jobsData
  | .error _ => accumFold leicaStep (anchorsWithHref soup)

/-! ## The worker pipeline

`Worker.run` (src/main/main.py:358-484) is embedded as a pure function of
a per-run environment.  The environment assigns to each selected company
name the behaviour of its scraping steps during this run: the outcome of
the listing-page fetch (`requests.get` + `raise_for_status`,
src/main/main.py:380-385), of the listing-parser invocation
(src/main/main.py:395), and — per detail url — of the detail-page fetch
(src/main/main.py:415-420) and the detail-parser invocation
(src/main/main.py:428).  `Except.error msg` stands for a raised exception
caught by the corresponding `except` clause.

The `progress`/`status`/`log` signal emissions (and the terminal
`finished` signal) become an ordered event list; log lines are recorded as
structured events carrying the enclosing company (and job title), so that
per-company/per-job outcomes can be stated directly. -/

/-- Behaviour of one configured company during one run (the oracle view of
the `cfg` dictionary plus the network). -/
structure CompanyCfg where
  listingFetch : Except String Unit
  listingParse : Except String (List Job)
  detailFetch : String → Except String Unit
  detailParse : String → Except String String
  note : Option String := none

/-- Per-run environment: `COMPANIES.get` composed with this run's network
behaviour, plus today's formatted date (src/main/main.py:360). -/
structure Env where
  companies : String → Option CompanyCfg
  todayDate : String

/-- A persisted record `(date, company, title, description)`
(src/main/main.py:361,435). -/
abbrev Rec := String × String × String × String

/-- Structured log lines, one constructor per `self.log.emit` site of
`Worker.run`, carrying the enclosing company name (and job title). -/
inductive LogLine where
  | noConfig (company : String)
  | companyHeader (company : String)
  | configNote (company txt : String)
  | listingFetchFailed (company msg : String)
  | listingParseError (company msg : String)
  | noPostings (company : String)
  | foundPostings (company : String) (n : Nat)
  | detailFetchSkipped (company title msg : String)
  | detailParseSkipped (company title msg : String)
  | scraped (company title : String)
  | noDescription (company title : String)
deriving DecidableEq, Repr

/-- The log lines the error-handling design counts as errors: the four
fetch/parse failure kinds.  `noPostings` and `noDescription` are logged
informational outcomes, not errors. -/
def LogLine.isError : LogLine → Bool
  | .listingFetchFailed _ _ => true
  | .listingParseError _ _ => true
  | .detailFetchSkipped _ _ _ => true
  | .detailParseSkipped _ _ _ => true
  | _ => false

/-- Events emitted by the worker: log lines, status strings, progress
values, and the terminal `finished(success, message)` signal. -/
inductive Ev where
  | log (l : LogLine)
  | status (s : String)
  | progress (p : Nat)
  | finished (success : Bool) (msg : String)
deriving DecidableEq, Repr

/-- Model of `base_progress = int((idx / total_companies) * 80)`
(src/main/main.py:374); exact value `80 * idx / total`, truncated. -/
def companyBase (idx total : Nat) : Nat :=
  80 * idx / total

/-- Model of `company_progress_range = int(80 / total_companies)`
(src/main/main.py:375). -/
def companyRange (total : Nat) : Nat :=
  80 / total

/-- Model of `base_progress + int(company_progress_range * 0.15)`
(src/main/main.py:390). -/
def fetchProgress (base range : Nat) : Nat :=
  base + range * 15 / 100

/-- Model of `base_progress + int(company_progress_range * 0.25)`
(src/main/main.py:407). -/
def parseProgress (base range : Nat) : Nat :=
  base + range * 25 / 100

/-- Model of
`int(base_progress + 0.25 * company_progress_range + i * detail_step)`
with `detail_step = (company_progress_range * 0.60) / num_jobs`
(src/main/main.py:410,423,431,440): the exact value is
`base + range * (25 * num + 60 * i) / (100 * num)`, truncated. -/
def jobProgress (base range num i : Nat) : Nat :=
  base + range * (25 * num + 60 * i) / (100 * num)

/-- Model of `80 + int(j * insert_step)` with `insert_step = 15 /
len(all_jobs)` (src/main/main.py:464,475). -/
def insertProgress (n j : Nat) : Nat :=
  80 + 15 * j / n

/-- One iteration of the detail loop of `Worker.run`
(src/main/main.py:412-441), for the `i`-th job (1-based, as in
`enumerate(job_list, 1)`): status emission, detail fetch, detail parse,
and the record-creation decision on the trimmed description.  Returns the
records appended to `all_jobs` and the events emitted. -/
def processJob (E : Env) (cfg : CompanyCfg) (company : String)
    (base range num i : Nat) (job : Job) : List Rec × List Ev :=
  let st : Ev := .status ("[" ++ company ++ "] " ++ toString i ++ "/" ++
    toString num ++ ": " ++ job.1)
  let prog : Ev := .progress (jobProgress base range num i)
  match cfg.detailFetch job.2 with
  | .error e => ([], [st, .log (.detailFetchSkipped company job.1 e), prog])
  | .ok _ =>
    match cfg.detailParse job.2 with
    | .error e => ([], [st, .log (.detailParseSkipped company job.1 e), prog])
    | .ok description =>
      if pyStrip description ≠ "" then
        ([(E.todayDate, company, job.1, pyStrip description)],
          [st, .log (.scraped company job.1), prog])
      else
        ([], [st, .log (.noDescription company job.1), prog])

/-- The detail loop of `Worker.run` over the whole job list, `i` counting
from 1 (src/main/main.py:412). -/
def runJobs (E : Env) (cfg : CompanyCfg) (company : String)
    (base range num : Nat) : Nat → List Job → List Rec × List Ev
  | _, [] => ([], [])
  | i, j :: rest =>
    let r1 := processJob E cfg company base range num i j
    let r2 := runJobs E cfg company base range num (i + 1) rest
    (r1.1 ++ r2.1, r1.2 ++ r2.2)

/-- One iteration of the company loop of `Worker.run`
(src/main/main.py:364-443) for the company at position `idx` of the
selection: configuration lookup, listing fetch, listing parse, the guard
on zero postings, the detail loop, and the final
`self.progress.emit(base_progress + company_progress_range)`. -/
def processCompany (E : Env) (total idx : Nat) (company : String) :
    List Rec × List Ev :=
  match E.companies company with
  | none => ([], [.log (.noConfig company)])
  | some cfg =>
    let hdr : List Ev := [.log (.companyHeader company)] ++
      (match cfg.note with
       | some n => [.log (.configNote company n)]
       | none => [])
    let base := companyBase idx total
    let range := companyRange total
    let stF : Ev := .status ("[" ++ company ++ "] Fetching listings page…")
    match cfg.listingFetch with
    | .error e => ([], hdr ++ [stF, .log (.listingFetchFailed company e)])
    | .ok _ =>
      let p1 : Ev := .progress (fetchProgress base range)
      match cfg.listingParse with
      | .error e => ([], hdr ++ [stF, p1, .log (.listingParseError company e)])
      | .ok jobList =>
        let num := jobList.length
        if num = 0 then
          ([], hdr ++ [stF, p1, .log (.noPostings company), .progress (base + range)])
        else
          let r := runJobs E cfg company base range num 1 jobList
          (r.1, hdr ++ [stF, p1, .log (.foundPostings company num),
            .progress (parseProgress base range)] ++ r.2 ++ [.progress (base + range)])

/-- The company loop of `Worker.run` over the whole selection,
`idx` counting from 0 (`enumerate(self.selected_companies)`). -/
def runCompanies (E : Env) (total : Nat) : Nat → List String → List Rec × List Ev
  | _, [] => ([], [])
  | idx, c :: rest =>
    let r1 := processCompany E total idx c
    let r2 := runCompanies E total (idx + 1) rest
    (r1.1 ++ r2.1, r1.2 ++ r2.2)

/-! ## The record sink -/

/-- A worksheet row: four optional cell values (a cell left empty by
`insert_rows` stays `none`). -/
abbrev Row := List (Option String)

/-- A worksheet: the list of its rows, top row first. -/
abbrev Sheet := List Row

/-- The header row appended when the workbook is freshly created
(src/main/main.py:459). -/
def headerRow : Row :=
  [some "Date", some "Company", some "Role", some "Role description"]

/-- The `try`/`except IllegalCharacterError` cell-writing block of the sink
(src/main/main.py:466-474): the four cells of the freshly inserted row 2
are written in order; the first value containing a character the format
cannot represent raises, aborting the remaining writes, and the handler
then writes only column 4 with the description filtered to printable
characters.  Cells whose write never executed stay empty. -/
def tryWriteRow (r : Rec) : Row :=
  if hasIllegal r.1 then
    [none, none, none, some (stripNonPrintable r.2.2.2)]
  else if hasIllegal r.2.1 then
    [some r.1, none, none, some (stripNonPrintable r.2.2.2)]
  else if hasIllegal r.2.2.1 then
    [some r.1, some r.2.1, none, some (stripNonPrintable r.2.2.2)]
  else if hasIllegal r.2.2.2 then
    [some r.1, some r.2.1, some r.2.2.1, some (stripNonPrintable r.2.2.2)]
  else
    [some r.1, some r.2.1, some r.2.2.1, some r.2.2.2]

/-- The insertion loop of the sink (src/main/main.py:465-475): for each
record of `reversed(all_jobs)` (`j` counting from 1), `ws.insert_rows(2)`
followed by the cell writes — i.e. the new row is placed at index 1, right
below the header — and one progress emission. -/
def sinkLoop (n : Nat) : Sheet → Nat → List Rec → Sheet × List Ev
  | rows, _, [] => (rows, [])
  | rows, j, r :: rest =>
    let rows1 := rows.insertIdx 1 (tryWriteRow r)
    let res := sinkLoop n rows1 (j + 1) rest
    (res.1, .progress (insertProgress n j) :: res.2)

/-- The record sink as a function of the persisted file: `append_batch`.
`none` stands for `Scrapify.xlsx` being absent (`FileNotFoundError`, a new
workbook with the header row is created, src/main/main.py:454-459); the
batch is iterated in reverse with each record inserted at row 2. -/
def appendBatch (file : Option Sheet) (batch : List Rec) : Sheet :=
  let rows := match file with
    | none => [headerRow]
    | some rs => rs
  (sinkLoop batch.length rows 1 batch.reverse).1

/-- Events emitted by the sink phase for a non-empty batch
(src/main/main.py:450-481). -/
def sinkEvents (file : Option Sheet) (batch : List Rec) : List Ev :=
  [.status "Preparing Excel file…", .status "Inserting jobs…"] ++
    (sinkLoop batch.length
      (match file with | none => [headerRow] | some rs => rs) 1 batch.reverse).2 ++
    [.status "Saving…", .progress 100, .status "Done",
      .finished true ("Added " ++ toString batch.length ++ " job(s) to Scrapify.xlsx.")]

/-- Result of a whole run: the emitted events and the resulting state of
the persisted file. -/
structure RunOut where
  events : List Ev
  file : Option Sheet

/-- Embedding of `Worker.run` (src/main/main.py:358-484): the company loop
followed by the empty-batch early return (src/main/main.py:446-448) or the
Excel sink phase.  The file parameter is the state of `Scrapify.xlsx`
before the run. -/
def workerRun (E : Env) (selected : List String) (file : Option Sheet) : RunOut :=
  let total := selected.length
  let r := runCompanies E total 0 selected
  if r.1.isEmpty then
    ⟨r.2 ++ [.finished true "Scraping complete — no job descriptions were collected."], file⟩
  else
    ⟨r.2 ++ sinkEvents file r.1, some (appendBatch file r.1)⟩

/-- The accumulated batch (`all_jobs`) of a run. -/
def runRecords (E : Env) (selected : List String) : List Rec :=
  (runCompanies E selected.length 0 selected).1

/-- The ordered list of progress values among a list of events. -/
def progressValues (evs : List Ev) : List Nat :=
  evs.filterMap (fun e => match e with | .progress p => some p | _ => none)

/-- The ordered list of error log lines among a list of events (the run's
error list). -/
def errorLogs (evs : List Ev) : List LogLine :=
  evs.filterMap (fun e => match e with
    | .log l => if l.isError then some l else none
    | _ => none)

/-! ## Sink lemmas -/

/-- The sheet produced by the insertion loop is a left fold of
insert-at-index-1 steps. -/
theorem sinkLoop_sheet (n : Nat) (l : List Rec) : ∀ (rows : Sheet) (j : Nat),
    (sinkLoop n rows j l).1
      = l.foldl (fun rs r => rs.insertIdx 1 (tryWriteRow r)) rows := by
  induction l with
  | nil => intro rows j; rfl
  | cons r rest ih => intro rows j; simp [sinkLoop, ih]

/-- Folding insert-at-index-1 over a batch prepends the batch's rows, in
batch order, directly below the first row. -/
theorem foldr_insert_cons (b : List Rec) (hd : Row) (rest : Sheet) :
    b.foldr (fun r rs => rs.insertIdx 1 (tryWriteRow r)) (hd :: rest)
      = hd :: (b.map tryWriteRow ++ rest) := by
  induction b with
  | nil => simp
  | cons r b ih => simp [ih]

/-- Appending a batch to a sheet with at least one (header) row places the
batch's rows, in batch order, directly below the first row. -/
theorem appendBatch_cons (hd : Row) (rest : Sheet) (b : List Rec) :
    appendBatch (some (hd :: rest)) b = hd :: (b.map tryWriteRow ++ rest) := by
  unfold appendBatch
  rw [sinkLoop_sheet, List.foldl_reverse]
  exact foldr_insert_cons b hd rest

/-- Appending a batch to an absent file creates the header and places the
batch below it in batch order. -/
theorem appendBatch_none (b : List Rec) :
    appendBatch none b = headerRow :: b.map tryWriteRow := by
  unfold appendBatch
  rw [sinkLoop_sheet, List.foldl_reverse]
  simpa using foldr_insert_cons b headerRow []

/-- C1: appending a batch to an empty sink yields the header followed by
the batch in discovery order; appending a second batch to the populated
sink yields the header, the second batch in discovery order, then the
first batch in discovery order; and in general each appended batch is
prepended as a block directly below the header (the loop iterates the
batch in reverse, inserting every record at the first data row). -/
theorem sink_prepend_roundtrip (b1 b2 : List Rec) :
    appendBatch none b1 = headerRow :: b1.map tryWriteRow
  ∧ appendBatch (some (appendBatch none b1)) b2
      = headerRow :: (b2.map tryWriteRow ++ b1.map tryWriteRow)
  ∧ ∀ (hd : Row) (rest : Sheet) (b : List Rec),
      appendBatch (some (hd :: rest)) b = hd :: (b.map tryWriteRow ++ rest) := by
  refine ⟨appendBatch_none b1, ?_, fun hd rest b => appendBatch_cons hd rest b⟩
  rw [appendBatch_none, appendBatch_cons]

/-! ## Non-printable handling in the sink (C6) -/

/-- A job title containing a NUL character. -/
def badTitle : String := String.mk ['T', Char.ofNat 0]

/-- A description containing a NUL character. -/
def badDesc : String := String.mk ['D', Char.ofNat 0]

/-- C6, counterexample: for a record whose description contains an
unrepresentable character but whose title does too, the title cell write
raises first, so the persisted row has an empty title cell — the other
fields are not persisted unmodified, refuting the claim as stated at this
record. -/
theorem desc_illegal_other_fields_counterexample :
    hasIllegal badDesc = true
  ∧ tryWriteRow ("01/02/2026", "ACME", badTitle, badDesc)
      = [some "01/02/2026", some "ACME", none, some "D"]
  ∧ (none : Option String) ≠ some badTitle := by
  refine ⟨by decide, by decide, by decide⟩

/-- C6, amended: for every record whose description contains characters
the persisted format cannot represent while date, company and title do
not, the record is still written (row counts grow by exactly the batch
size and the record's row is present), with non-printable characters
stripped from the description field only; date, company and title are
persisted unmodified. -/
theorem desc_illegal_stripped_record_kept (d c t desc : String)
    (hd : hasIllegal d = false) (hc : hasIllegal c = false)
    (ht : hasIllegal t = false) (hdesc : hasIllegal desc = true) :
    tryWriteRow (d, c, t, desc)
      = [some d, some c, some t, some (stripNonPrintable desc)]
  ∧ (∀ (b : List Rec), (appendBatch none b).length = 1 + b.length)
  ∧ (∀ (hd0 : Row) (rest : Sheet) (b : List Rec),
      (appendBatch (some (hd0 :: rest)) b).length = (hd0 :: rest).length + b.length)
  ∧ (∀ (b : List Rec), (d, c, t, desc) ∈ b →
      [some d, some c, some t, some (stripNonPrintable desc)] ∈ appendBatch none b)
  ∧ (∀ (hd0 : Row) (rest : Sheet) (b : List Rec), (d, c, t, desc) ∈ b →
      [some d, some c, some t, some (stripNonPrintable desc)]
        ∈ appendBatch (some (hd0 :: rest)) b) := by
  have hrow : tryWriteRow (d, c, t, desc)
      = [some d, some c, some t, some (stripNonPrintable desc)] := by
    simp [tryWriteRow, hd, hc, ht, hdesc]
  refine ⟨hrow, ?_, ?_, ?_, ?_⟩
  · intro b; rw [appendBatch_none]; simp; omega
  · intro hd0 rest b; rw [appendBatch_cons]; simp; omega
  · intro b hb
    rw [appendBatch_none]
    exact List.mem_cons_of_mem _ (List.mem_map.2 ⟨_, hb, hrow⟩)
  · intro hd0 rest b hb
    rw [appendBatch_cons]
    exact List.mem_cons_of_mem _ (List.mem_append_left _ (List.mem_map.2 ⟨_, hb, hrow⟩))

/-- Witness for `desc_illegal_stripped_record_kept` at a concrete record. -/
theorem desc_illegal_stripped_record_kept_witness :
    hasIllegal "01/02/2026" = false ∧ hasIllegal "ACME" = false
  ∧ hasIllegal "Engineer" = false ∧ hasIllegal badDesc = true
  ∧ tryWriteRow ("01/02/2026", "ACME", "Engineer", badDesc)
      = [some "01/02/2026", some "ACME", some "Engineer", some "D"]
  ∧ [some "01/02/2026", some "ACME", some "Engineer", some "D"]
      ∈ appendBatch none [("01/02/2026", "ACME", "Engineer", badDesc)] := by
  have h := desc_illegal_stripped_record_kept "01/02/2026" "ACME" "Engineer" badDesc
    (by decide) (by decide) (by decide) (by decide)
  refine ⟨by decide, by decide, by decide, by decide, ?_, ?_⟩
  · rw [h.1]; decide
  · have := h.2.2.2.1 [("01/02/2026", "ACME", "Engineer", badDesc)] (by simp)
    simpa using this

/-! ## Record creation invariant (C2) -/

/-- C2: for a job whose detail page is fetched and parsed successfully, a
record is appended to the batch if and only if the extracted description
is non-empty after trimming; the record carries the trimmed description;
and when the trimmed description is empty a no-description log line is
emitted, no record is created, and no error is recorded. -/
theorem record_iff_nonempty_description (E : Env) (cfg : CompanyCfg)
    (company : String) (base range num i : Nat) (title url desc : String)
    (hf : cfg.detailFetch url = .ok ())
    (hp : cfg.detailParse url = .ok desc) :
    ((processJob E cfg company base range num i (title, url)).1
      = if pyStrip desc = "" then []
        else [(E.todayDate, company, title, pyStrip desc)])
  ∧ (pyStrip desc = "" →
      (processJob E cfg company base range num i (title, url)).1 = []
      ∧ Ev.log (.noDescription company title)
          ∈ (processJob E cfg company base range num i (title, url)).2
      ∧ errorLogs (processJob E cfg company base range num i (title, url)).2 = []) := by
  by_cases h : pyStrip desc = ""
  · refine ⟨?_, fun _ => ⟨?_, ?_, ?_⟩⟩ <;>
      simp [processJob, hf, hp, h, errorLogs, LogLine.isError]
  · refine ⟨?_, fun hc => absurd hc h⟩
    simp [processJob, hf, hp, h]

/-- Witness for `record_iff_nonempty_description`: a company whose detail
parse yields a whitespace-only description creates no record, logs the
no-description line and records no error; with a real description the
record is created. -/
theorem record_iff_nonempty_description_witness :
    ((processJob ⟨fun _ => none, "01/02/2026"⟩
        ⟨.ok (), .ok [], fun _ => .ok (), fun _ => .ok "  \n", none⟩
        "ACME" 0 80 1 1 ("Engineer", "u")).1 = []
      ∧ Ev.log (.noDescription "ACME" "Engineer")
          ∈ (processJob ⟨fun _ => none, "01/02/2026"⟩
              ⟨.ok (), .ok [], fun _ => .ok (), fun _ => .ok "  \n", none⟩
              "ACME" 0 80 1 1 ("Engineer", "u")).2
      ∧ errorLogs (processJob ⟨fun _ => none, "01/02/2026"⟩
          ⟨.ok (), .ok [], fun _ => .ok (), fun _ => .ok "  \n", none⟩
          "ACME" 0 80 1 1 ("Engineer", "u")).2 = [])
  ∧ (processJob ⟨fun _ => none, "01/02/2026"⟩
        ⟨.ok (), .ok [], fun _ => .ok (), fun _ => .ok " Great role ", none⟩
        "ACME" 0 80 1 1 ("Engineer", "u")).1
      = [("01/02/2026", "ACME", "Engineer", "Great role")] := by
  constructor
  · exact (record_iff_nonempty_description ⟨fun _ => none, "01/02/2026"⟩
      ⟨.ok (), .ok [], fun _ => .ok (), fun _ => .ok "  \n", none⟩
      "ACME" 0 80 1 1 "Engineer" "u" "  \n" rfl rfl).2 (by decide)
  · have h := (record_iff_nonempty_description ⟨fun _ => none, "01/02/2026"⟩
      ⟨.ok (), .ok [], fun _ => .ok (), fun _ => .ok " Great role ", none⟩
      "ACME" 0 80 1 1 "Engineer" "u" " Great role " rfl rfl).1
    rw [h]; decide

/-! ## Per-job and per-company failure isolation -/

/-- Error logs distribute over event concatenation. -/
@[simp] theorem errorLogs_append (a b : List Ev) :
    errorLogs (a ++ b) = errorLogs a ++ errorLogs b := by
  simp [errorLogs]

/-- Progress values distribute over event concatenation. -/
@[simp] theorem progressValues_append (a b : List Ev) :
    progressValues (a ++ b) = progressValues a ++ progressValues b := by
  simp [progressValues]

/-- C4: for a company whose listing parse discovers 3 jobs and where
exactly job 2's detail fetch fails, the company contributes exactly the
records of jobs 1 and 3 (in discovery order), its error list is exactly
the one detail-fetch error naming job 2's title, and its progress still
reaches the company's full allotted range `base + range`. -/
theorem per_job_failure_isolation (E : Env) (cfg : CompanyCfg)
    (total idx : Nat) (company t1 u1 t2 u2 t3 u3 e d1 d3 : String)
    (hcfg : E.companies company = some cfg)
    (hF : cfg.listingFetch = .ok ())
    (hP : cfg.listingParse = .ok [(t1, u1), (t2, u2), (t3, u3)])
    (h1 : cfg.detailFetch u1 = .ok ())
    (h2 : cfg.detailFetch u2 = .error e)
    (h3 : cfg.detailFetch u3 = .ok ())
    (hp1 : cfg.detailParse u1 = .ok d1)
    (hp3 : cfg.detailParse u3 = .ok d3)
    (hd1 : pyStrip d1 ≠ "") (hd3 : pyStrip d3 ≠ "") :
    (processCompany E total idx company).1
      = [(E.todayDate, company, t1, pyStrip d1),
         (E.todayDate, company, t3, pyStrip d3)]
  ∧ errorLogs (processCompany E total idx company).2
      = [.detailFetchSkipped company t2 e]
  ∧ (progressValues (processCompany E total idx company).2).getLast?
      = some (companyBase idx total + companyRange total) := by
  have hrun : processCompany E total idx company
      = ((runJobs E cfg company (companyBase idx total) (companyRange total) 3 1
            [(t1, u1), (t2, u2), (t3, u3)]).1,
         ([.log (.companyHeader company)] ++
            (match cfg.note with
             | some n => [.log (.configNote company n)]
             | none => []) ++
          [.status ("[" ++ company ++ "] Fetching listings page…"),
           .progress (fetchProgress (companyBase idx total) (companyRange total)),
           .log (.foundPostings company 3),
           .progress (parseProgress (companyBase idx total) (companyRange total))] ++
          (runJobs E cfg company (companyBase idx total) (companyRange total) 3 1
            [(t1, u1), (t2, u2), (t3, u3)]).2 ++
          [.progress (companyBase idx total + companyRange total)])) := by
    simp [processCompany, hcfg, hF, hP]
  rw [hrun]
  simp only [runJobs, processJob, h1, h2, h3, hp1, hp3, hd1, hd3]
  cases cfg.note <;>
    simp [errorLogs, progressValues, LogLine.isError, hd1, hd3]

/-- Witness for `per_job_failure_isolation` at a fully concrete company. -/
theorem per_job_failure_isolation_witness :
    (processCompany
        ⟨fun _ => some ⟨.ok (), .ok [("E1", "u1"), ("E2", "u2"), ("E3", "u3")],
          fun u => if u = "u2" then .error "timeout" else .ok (),
          fun u => if u = "u1" then .ok "Great role" else .ok "Other role",
          none⟩, "01/02/2026"⟩ 1 0 "ACME").1
      = [("01/02/2026", "ACME", "E1", "Great role"),
         ("01/02/2026", "ACME", "E3", "Other role")]
  ∧ errorLogs (processCompany
        ⟨fun _ => some ⟨.ok (), .ok [("E1", "u1"), ("E2", "u2"), ("E3", "u3")],
          fun u => if u = "u2" then .error "timeout" else .ok (),
          fun u => if u = "u1" then .ok "Great role" else .ok "Other role",
          none⟩, "01/02/2026"⟩ 1 0 "ACME").2
      = [.detailFetchSkipped "ACME" "E2" "timeout"]
  ∧ (progressValues (processCompany
        ⟨fun _ => some ⟨.ok (), .ok [("E1", "u1"), ("E2", "u2"), ("E3", "u3")],
          fun u => if u = "u2" then .error "timeout" else .ok (),
          fun u => if u = "u1" then .ok "Great role" else .ok "Other role",
          none⟩, "01/02/2026"⟩ 1 0 "ACME").2).getLast?
      = some (companyBase 0 1 + companyRange 1) := by
  exact per_job_failure_isolation
    ⟨fun _ => some ⟨.ok (), .ok [("E1", "u1"), ("E2", "u2"), ("E3", "u3")],
      fun u => if u = "u2" then .error "timeout" else .ok (),
      fun u => if u = "u1" then .ok "Great role" else .ok "Other role",
      none⟩, "01/02/2026"⟩
    ⟨.ok (), .ok [("E1", "u1"), ("E2", "u2"), ("E3", "u3")],
      fun u => if u = "u2" then .error "timeout" else .ok (),
      fun u => if u = "u1" then .ok "Great role" else .ok "Other role",
      none⟩
    1 0 "ACME" "E1" "u1" "E2" "u2" "E3" "u3" "timeout" "Great role" "Other role"
    rfl rfl rfl rfl rfl rfl rfl rfl (by decide) (by decide)

/-- Computation rule: the empty event list has no error logs. -/
@[simp] theorem errorLogs_nil : errorLogs [] = [] := rfl

/-- Computation rule: status events contribute no error logs. -/
@[simp] theorem errorLogs_status (s : String) (rest : List Ev) :
    errorLogs (Ev.status s :: rest) = errorLogs rest := rfl

/-- Computation rule: progress events contribute no error logs. -/
@[simp] theorem errorLogs_progress (p : Nat) (rest : List Ev) :
    errorLogs (Ev.progress p :: rest) = errorLogs rest := rfl

/-- Computation rule: the finished event contributes no error logs. -/
@[simp] theorem errorLogs_finished (b : Bool) (m : String) (rest : List Ev) :
    errorLogs (Ev.finished b m :: rest) = errorLogs rest := rfl

/-- Computation rule: a log event contributes itself exactly when it is an
error. -/
@[simp] theorem errorLogs_log (l : LogLine) (rest : List Ev) :
    errorLogs (Ev.log l :: rest)
      = if l.isError then l :: errorLogs rest else errorLogs rest := by
  by_cases h : l.isError <;> simp [errorLogs, h]

/-- Computation rule: the empty event list has no progress values. -/
@[simp] theorem progressValues_nil : progressValues [] = [] := rfl

/-- Computation rule: status events contribute no progress values. -/
@[simp] theorem progressValues_status (s : String) (rest : List Ev) :
    progressValues (Ev.status s :: rest) = progressValues rest := rfl

/-- Computation rule: log events contribute no progress values. -/
@[simp] theorem progressValues_log (l : LogLine) (rest : List Ev) :
    progressValues (Ev.log l :: rest) = progressValues rest := rfl

/-- Computation rule: the finished event contributes no progress values. -/
@[simp] theorem progressValues_finished (b : Bool) (m : String) (rest : List Ev) :
    progressValues (Ev.finished b m :: rest) = progressValues rest := rfl

/-- Computation rule: a progress event contributes its value. -/
@[simp] theorem progressValues_progress (p : Nat) (rest : List Ev) :
    progressValues (Ev.progress p :: rest) = p :: progressValues rest := rfl

/-- A pure-progress event list records no errors. -/
@[simp] theorem errorLogs_map_progress (f : Nat → Nat) (l : List Nat) :
    errorLogs (l.map (fun k => Ev.progress (f k))) = [] := by
  induction l with
  | nil => rfl
  | cons a t ih => simp [ih]

/-- A pure-progress event list has exactly the mapped progress values. -/
@[simp] theorem progressValues_map_progress (f : Nat → Nat) (l : List Nat) :
    progressValues (l.map (fun k => Ev.progress (f k))) = l.map f := by
  induction l with
  | nil => rfl
  | cons a t ih => simp [ih]

/-- The insertion loop emits exactly one progress value per inserted
record, `j` counting up from its starting value. -/
theorem sinkLoop_events (n : Nat) (l : List Rec) : ∀ (rows : Sheet) (j : Nat),
    (sinkLoop n rows j l).2
      = (List.range l.length).map (fun k => Ev.progress (insertProgress n (j + k))) := by
  induction l with
  | nil => intro rows j; rfl
  | cons r rest ih =>
    intro rows j
    have hf : (fun k => Ev.progress (insertProgress n (j + 1 + k)))
        = ((fun k => Ev.progress (insertProgress n (j + k))) ∘ Nat.succ) := by
      funext k
      show Ev.progress (insertProgress n (j + 1 + k))
        = Ev.progress (insertProgress n (j + (k + 1)))
      have h : j + 1 + k = j + (k + 1) := by omega
      rw [h]
    simp only [sinkLoop, List.length_cons, List.range_succ_eq_map, List.map_cons,
      List.map_map, ih, hf, Nat.add_zero]

/-- The sink phase records no errors. -/
theorem errorLogs_sinkEvents (file : Option Sheet) (b : List Rec) :
    errorLogs (sinkEvents file b) = [] := by
  unfold sinkEvents
  rw [sinkLoop_events]
  simp

/-- The sink phase ends with the success `finished` event. -/
theorem getLast_sinkEvents (file : Option Sheet) (b : List Rec) :
    (sinkEvents file b).getLast?
      = some (.finished true ("Added " ++ toString b.length ++ " job(s) to Scrapify.xlsx.")) := by
  unfold sinkEvents
  rw [List.getLast?_append_of_ne_nil]
  · rfl
  · simp

/-- C3: for a run over 3 companies where exactly company 2 fails at
listing fetch, companies 1 and 3 are still fully processed (their records
are the run's whole batch, in order), the run's ordered error list is
exactly one entry naming company 2, and the run still ends with the
success `finished` event rather than an exception. -/
theorem company_failure_isolation (E : Env) (cfgA cfgB cfgC : CompanyCfg)
    (cA cB cC tA uA tC uC e dA dC : String) (file : Option Sheet)
    (hA : E.companies cA = some cfgA)
    (hB : E.companies cB = some cfgB)
    (hC : E.companies cC = some cfgC)
    (hAf : cfgA.listingFetch = .ok ())
    (hAp : cfgA.listingParse = .ok [(tA, uA)])
    (hAd : cfgA.detailFetch uA = .ok ())
    (hAdp : cfgA.detailParse uA = .ok dA)
    (hdA : pyStrip dA ≠ "")
    (hBf : cfgB.listingFetch = .error e)
    (hCf : cfgC.listingFetch = .ok ())
    (hCp : cfgC.listingParse = .ok [(tC, uC)])
    (hCd : cfgC.detailFetch uC = .ok ())
    (hCdp : cfgC.detailParse uC = .ok dC)
    (hdC : pyStrip dC ≠ "") :
    runRecords E [cA, cB, cC]
      = [(E.todayDate, cA, tA, pyStrip dA), (E.todayDate, cC, tC, pyStrip dC)]
  ∧ errorLogs (workerRun E [cA, cB, cC] file).events = [.listingFetchFailed cB e]
  ∧ (workerRun E [cA, cB, cC] file).events.getLast?
      = some (.finished true "Added 2 job(s) to Scrapify.xlsx.") := by
  have hrec : (runCompanies E 3 0 [cA, cB, cC]).1
      = [(E.todayDate, cA, tA, pyStrip dA), (E.todayDate, cC, tC, pyStrip dC)] := by
    simp [runCompanies, processCompany, hA, hB, hC, hAf, hAp, hAd, hAdp, hBf,
      hCf, hCp, hCd, hCdp, runJobs, processJob, hdA, hdC]
  have herr : errorLogs (runCompanies E 3 0 [cA, cB, cC]).2
      = [.listingFetchFailed cB e] := by
    simp only [runCompanies, processCompany, hA, hB, hC, hAf, hAp, hBf, hCf, hCp]
    simp only [runJobs, processJob, hAd, hAdp, hCd, hCdp]
    cases cfgA.note <;> cases cfgB.note <;> cases cfgC.note <;>
      simp [errorLogs, LogLine.isError, hdA, hdC]
  constructor
  · simpa [runRecords] using hrec
  constructor
  · have : ¬(runCompanies E 3 0 [cA, cB, cC]).1.isEmpty = true := by
      rw [hrec]; simp
    simp only [workerRun, List.length_cons, List.length_nil]
    rw [if_neg this]
    simp [errorLogs_sinkEvents, herr]
  · have : ¬(runCompanies E 3 0 [cA, cB, cC]).1.isEmpty = true := by
      rw [hrec]; simp
    simp only [workerRun, List.length_cons, List.length_nil]
    rw [if_neg this]
    simp only [RunOut.mk.injEq]
    rw [List.getLast?_append_of_ne_nil, getLast_sinkEvents, hrec]
    · simp only [List.length_cons, List.length_nil]
      decide
    · simp [sinkEvents]

/-- Environment for the C3 witness: companies A and C succeed with one job
each, company B's listing fetch raises. -/
def isolationEnv : Env :=
  ⟨fun c =>
    if c = "B" then
      some ⟨.error "503 Server Error", .ok [], fun _ => .ok (), fun _ => .ok "", none⟩
    else
      some ⟨.ok (), .ok [(c ++ "-role", c ++ "-url")], fun _ => .ok (),
        fun _ => .ok ("About " ++ c), none⟩,
   "01/02/2026"⟩

/-- Witness for `company_failure_isolation` at a concrete three-company
run. -/
theorem company_failure_isolation_witness :
    runRecords isolationEnv ["A", "B", "C"]
      = [("01/02/2026", "A", "A-role", "About A"),
         ("01/02/2026", "C", "C-role", "About C")]
  ∧ errorLogs (workerRun isolationEnv ["A", "B", "C"] none).events
      = [.listingFetchFailed "B" "503 Server Error"]
  ∧ (workerRun isolationEnv ["A", "B", "C"] none).events.getLast?
      = some (.finished true "Added 2 job(s) to Scrapify.xlsx.") := by
  have h := company_failure_isolation isolationEnv
    ⟨.ok (), .ok [("A-role", "A-url")], fun _ => .ok (), fun _ => .ok "About A", none⟩
    ⟨.error "503 Server Error", .ok [], fun _ => .ok (), fun _ => .ok "", none⟩
    ⟨.ok (), .ok [("C-role", "C-url")], fun _ => .ok (), fun _ => .ok "About C", none⟩
    "A" "B" "C" "A-role" "A-url" "C-role" "C-url" "503 Server Error"
    "About A" "About C" none
    rfl rfl rfl rfl rfl rfl rfl (by decide) rfl rfl rfl rfl rfl (by decide)
  refine ⟨?_, h.2.1, h.2.2⟩
  have h1 := h.1
  simpa using h1

/-! ## Empty-batch frame property (C10) -/

/-- C10: when a run ends with an empty accumulated batch, the persisted
file state is returned untouched (in particular an absent file is not
created), and the run still terminates with the success `finished` event
carrying the no-descriptions-collected message. -/
theorem empty_batch_leaves_file_untouched (E : Env) (selected : List String)
    (file : Option Sheet) (h : runRecords E selected = []) :
    (workerRun E selected file).file = file
  ∧ (workerRun E selected file).events
      = (runCompanies E selected.length 0 selected).2 ++
        [.finished true "Scraping complete — no job descriptions were collected."]
  ∧ (workerRun E selected file).events.getLast?
      = some (.finished true "Scraping complete — no job descriptions were collected.") := by
  have hempty : (runCompanies E selected.length 0 selected).1.isEmpty = true := by
    rw [runRecords] at h
    simp [h]
  refine ⟨?_, ?_, ?_⟩
  · simp [workerRun, hempty]
  · simp [workerRun, hempty]
  · simp only [workerRun, hempty, if_pos]
    rw [List.getLast?_append_of_ne_nil]
    · rfl
    · simp

/-- Witness for `empty_batch_leaves_file_untouched`: a one-company run
whose listing parse finds zero postings collects nothing and leaves the
absent file absent. -/
theorem empty_batch_leaves_file_untouched_witness :
    runRecords ⟨fun _ => some ⟨.ok (), .ok [], fun _ => .ok (), fun _ => .ok "", none⟩,
        "01/02/2026"⟩ ["ACME"] = []
  ∧ (workerRun ⟨fun _ => some ⟨.ok (), .ok [], fun _ => .ok (), fun _ => .ok "", none⟩,
        "01/02/2026"⟩ ["ACME"] none).file = none
  ∧ (workerRun ⟨fun _ => some ⟨.ok (), .ok [], fun _ => .ok (), fun _ => .ok "", none⟩,
        "01/02/2026"⟩ ["ACME"] none).events.getLast?
      = some (.finished true "Scraping complete — no job descriptions were collected.") := by
  have h := empty_batch_leaves_file_untouched
    ⟨fun _ => some ⟨.ok (), .ok [], fun _ => .ok (), fun _ => .ok "", none⟩, "01/02/2026"⟩
    ["ACME"] none (by decide)
  exact ⟨by decide, h.1, h.2.2⟩

/-! ## Zero matching structures (C9) -/

mutual
/-- The nodes enumerated with ancestors are exactly the descendants. -/
theorem descWithAnc_map_fst (n : Node) (anc : List Node) :
    (Node.descWithAnc anc n).map Prod.fst = n.descendants := by
  cases n with
  | txt s => rfl
  | elem t c a cs =>
    show (descWithAncList (Node.elem t c a cs :: anc) cs).map Prod.fst
      = descendantsList cs
    exact descWithAncList_map_fst cs (Node.elem t c a cs :: anc)

/-- List version of `descWithAnc_map_fst`. -/
theorem descWithAncList_map_fst (l : List Node) (anc : List Node) :
    (descWithAncList anc l).map Prod.fst = descendantsList l := by
  cases l with
  | nil => rfl
  | cons n ns =>
    show n :: ((Node.descWithAnc anc n ++ descWithAncList anc ns).map Prod.fst)
      = n :: (n.descendants ++ descendantsList ns)
    rw [List.map_append, descWithAnc_map_fst n anc, descWithAncList_map_fst ns anc]
end

/-- A filter over the with-ancestor enumeration is empty whenever the same
filter over the descendants is empty. -/
theorem filter_descWithAnc_eq_nil (soup : Node) (p : Node → Bool)
    (h : soup.descendants.filter p = []) :
    (Node.descWithAnc [] soup).filter (fun q => p q.1) = [] := by
  rw [List.filter_eq_nil_iff] at h ⊢
  intro q hq
  apply h q.1
  rw [← descWithAnc_map_fst soup []]
  exact List.mem_map_of_mem Prod.fst hq

/-- C9: every adapter, on a document containing zero structures matching
its selectors, returns the empty sequence (and the API-backed adapters
return the empty sequence when the API fails or delivers no jobs); and the
pipeline treats a company whose listing parse returns zero listings as a
logged warning — no records, no errors, the no-postings log line, and the
company's closing progress emission. -/
theorem zero_structures_empty (soup : Node) :
    (findAllTagClass soup "div" "posting" = [] →
      lever_listings soup = [] ∧ rivr_listings soup = [] ∧ gravis_listings soup = [])
  ∧ (anchorsWithHref soup = [] →
      mimic_listings soup = [] ∧ flyability_listings soup = []
      ∧ ∀ e, leica_listings (.error e) soup = [])
  ∧ (findAllTag soup "h5" = [] →
      hexagon_listings soup = [] ∧ flexion_listings soup = [])
  ∧ (soup.descendants.filter isHeading = [] → flexionFile_listings soup = [])
  ∧ (∀ e, anybotics_listings (.error e) soup = [])
  ∧ anybotics_listings (.ok []) soup = []
  ∧ leica_listings (.ok []) soup = []
  ∧ (∀ (E : Env) (total idx : Nat) (c : String) (cfg : CompanyCfg),
      E.companies c = some cfg → cfg.listingFetch = .ok () →
      cfg.listingParse = .ok [] →
      (processCompany E total idx c).1 = []
      ∧ errorLogs (processCompany E total idx c).2 = []
      ∧ Ev.log (.noPostings c) ∈ (processCompany E total idx c).2
      ∧ Ev.progress (companyBase idx total + companyRange total)
          ∈ (processCompany E total idx c).2) := by
  refine ⟨?_, ?_, ?_, ?_, ?_, rfl, rfl, ?_⟩
  · intro h
    refine ⟨?_, ?_, ?_⟩ <;> simp [lever_listings, rivr_listings, gravis_listings, h, accumFold]
  · intro h
    refine ⟨?_, ?_, ?_⟩ <;>
      simp [mimic_listings, flyability_listings, leica_listings, h, accumFold, dedupBy]
  · intro h
    have h2 : (Node.descWithAnc [] soup).filter (fun q => isTag "h5" q.1) = [] :=
      filter_descWithAnc_eq_nil soup (isTag "h5") h
    constructor
    · unfold hexagon_listings
      rw [h]
      rfl
    · simp [flexion_listings, h2, accumFold, dedupBy]
  · intro h
    have h2 : (Node.descWithAnc [] soup).filter (fun q => isHeading q.1) = [] :=
      filter_descWithAnc_eq_nil soup isHeading h
    simp [flexionFile_listings, h2, accumFold, dedupBy]
  · intro e; rfl
  · intro E total idx c cfg hcfg hF hP
    cases hnote : cfg.note <;>
      simp [processCompany, hcfg, hF, hP, hnote, errorLogs, LogLine.isError]

/-- Witness for `zero_structures_empty` at the empty document and a
concrete zero-listing company. -/
theorem zero_structures_empty_witness :
    (findAllTagClass (Node.elem "html" [] [] []) "div" "posting" = []
      ∧ lever_listings (Node.elem "html" [] [] []) = [])
  ∧ (anchorsWithHref (Node.elem "html" [] [] []) = []
      ∧ mimic_listings (Node.elem "html" [] [] []) = [])
  ∧ (processCompany ⟨fun _ => some ⟨.ok (), .ok [], fun _ => .ok (), fun _ => .ok "", none⟩,
        "01/02/2026"⟩ 1 0 "ACME").1 = []
  ∧ Ev.log (.noPostings "ACME")
      ∈ (processCompany ⟨fun _ => some ⟨.ok (), .ok [], fun _ => .ok (), fun _ => .ok "", none⟩,
          "01/02/2026"⟩ 1 0 "ACME").2 := by
  have h := zero_structures_empty (Node.elem "html" [] [] [])
  have hpc := h.2.2.2.2.2.2.2
    ⟨fun _ => some ⟨.ok (), .ok [], fun _ => .ok (), fun _ => .ok "", none⟩, "01/02/2026"⟩
    1 0 "ACME" ⟨.ok (), .ok [], fun _ => .ok (), fun _ => .ok "", none⟩ rfl rfl rfl
  exact ⟨⟨rfl, (h.1 rfl).1⟩, ⟨rfl, (h.2.1 rfl).1⟩, hpc.1, hpc.2.2.1⟩

/-! ## Href resolution (C5) and de-duplication (C8) -/

/-- The accumulation fold is the concatenation of the per-element
contributions. -/
theorem accumFold_eq_flatten (step : α → List β) (l : List α) :
    accumFold step l = (l.map step).flatten := by
  suffices h : ∀ (init : List β),
      l.foldl (fun acc x => acc ++ step x) init = init ++ (l.map step).flatten by
    simpa using h []
  induction l with
  | nil => intro init; simp
  | cons a t ih => intro init; simp [ih]

/-- Membership in an accumulation fold comes from one element's
contribution. -/
theorem mem_accumFold {step : α → List β} {l : List α} {x : β}
    (h : x ∈ accumFold step l) : ∃ a ∈ l, x ∈ step a := by
  rw [accumFold_eq_flatten] at h
  rcases List.mem_flatten.1 h with ⟨s, hs, hx⟩
  rcases List.mem_map.1 hs with ⟨a, ha, rfl⟩
  exact ⟨a, ha, hx⟩

/-- De-duplication only keeps elements of its input. -/
theorem mem_dedupBy {key : Job → String} {l : List Job} {x : Job}
    (h : x ∈ dedupBy key l) : x ∈ l := by
  suffices haux : ∀ (l : List Job) (st : List String × List Job),
      x ∈ (l.foldl (fun st j =>
        if key j ∈ st.1 then st else (key j :: st.1, st.2 ++ [j])) st).2 →
      x ∈ st.2 ∨ x ∈ l by
    rcases haux l ([], []) h with hx | hx
    · simp at hx
    · exact hx
  intro l
  induction l with
  | nil => intro st hx; exact Or.inl hx
  | cons j t ih =>
    intro st hx
    rcases ih _ hx with hx2 | hx2
    · by_cases hk : key j ∈ st.1
      · simp only [if_pos hk] at hx2
        exact Or.inl hx2
      · simp only [if_neg hk] at hx2
        rcases List.mem_append.1 hx2 with h1 | h1
        · exact Or.inl h1
        · simp at h1
          exact Or.inr (by simp [h1])
    · exact Or.inr (List.mem_cons_of_mem _ hx2)

/-- The keys of a de-duplicated list are pairwise distinct. -/
theorem dedupBy_nodup (key : Job → String) (l : List Job) :
    ((dedupBy key l).map key).Nodup := by
  suffices haux : ∀ (l : List Job) (st : List String × List Job),
      (st.2.map key).Nodup → (∀ j ∈ st.2, key j ∈ st.1) →
      (((l.foldl (fun st j =>
        if key j ∈ st.1 then st else (key j :: st.1, st.2 ++ [j])) st).2).map key).Nodup by
    exact haux l ([], []) (by simp) (by simp)
  intro l
  induction l with
  | nil => intro st h1 _; exact h1
  | cons j t ih =>
    intro st h1 h2
    by_cases hk : key j ∈ st.1
    · rw [List.foldl_cons, if_pos hk]
      exact ih st h1 h2
    · rw [List.foldl_cons, if_neg hk]
      refine ih _ ?_ ?_
      · simp only [List.map_append, List.map_cons, List.map_nil]
        rw [List.nodup_append]
        refine ⟨h1, List.nodup_singleton _, ?_⟩
        intro a ha hb
        simp at hb
        subst hb
        rcases List.mem_map.1 ha with ⟨c, hc, hkey⟩
        exact hk (hkey ▸ h2 c hc)
      · intro q hq
        rcases List.mem_append.1 hq with hq1 | hq1
        · exact List.mem_cons_of_mem _ (h2 q hq1)
        · simp at hq1
          simp [hq1]

/-- Prepending the origin string makes it a prefix. -/
theorem strStarts_append (a b : String) : strStarts (a ++ b) a = true := by
  cases a with
  | mk d1 =>
    cases b with
    | mk d2 =>
      show List.isPrefixOf d1 (d1 ++ d2) = true
      rw [List.isPrefixOf_iff_prefix]
      exact List.prefix_append d1 d2

/-- A string starting with `http` does not start with `.` or `/`. -/
theorem http_not_dotslash (h : String) (hh : strStarts h "http" = true) :
    strStarts h "./" = false ∧ strStarts h "/" = false := by
  unfold strStarts at hh ⊢
  rw [List.isPrefixOf_iff_prefix] at hh
  rcases hh with ⟨t, ht⟩
  constructor
  · rw [show h.toList = "http".toList ++ t from ht.symm]
    rfl
  · rw [show h.toList = "http".toList ++ t from ht.symm]
    rfl

/-- Every url produced by the mimic loop body is the resolution of some
href. -/
theorem mimicStep_url (a : Node) (t u : String) (h : (t, u) ∈ mimicStep a) :
    ∃ href, u = mimicResolve href := by
  unfold mimicStep at h
  cases ha : a.attr "href" with
  | none => simp [ha] at h
  | some href =>
    simp only [ha] at h
    split_ifs at h <;> simp at h
    exact ⟨href, h.2⟩

/-- Every url produced by the hexagon loop body is the resolution of some
href. -/
theorem hexagonStep_url (h5 : Node) (t u : String) (h : (t, u) ∈ hexagonStep h5) :
    ∃ href, u = hexagonResolve href := by
  unfold hexagonStep at h
  cases hfind : h5.descendants.find? isAnchorHref with
  | none => simp [hfind] at h
  | some a =>
    simp only [hfind] at h
    cases ha : a.attr "href" with
    | none => simp [ha] at h
    | some href =>
      simp only [ha] at h
      split_ifs at h <;> simp at h
      exact ⟨href, h.2⟩

/-- Every url produced by the flyability loop body is the resolution of
some href. -/
theorem flyabilityStep_url (a : Node) (t u : String)
    (h : (t, u) ∈ flyabilityStep a) : ∃ href, u = flyabilityResolve href := by
  unfold flyabilityStep at h
  cases ha : a.attr "href" with
  | none => simp [ha] at h
  | some href =>
    simp only [ha] at h
    split_ifs at h <;> simp at h
    exact ⟨href, h.2⟩

/-- Every url produced by the leica HTML-fallback loop body is the
resolution of some href. -/
theorem leicaStep_url (a : Node) (t u : String) (h : (t, u) ∈ leicaStep a) :
    ∃ href, u = leicaResolve href := by
  unfold leicaStep at h
  cases ha : a.attr "href" with
  | none => simp [ha] at h
  | some href =>
    simp only [ha] at h
    split_ifs at h <;> simp at h
    exact ⟨href, h.2⟩

/-- Every url produced by the flexion (main.py) loop body is the
resolution of some href. -/
theorem flexionStep_url (p : Node × List Node) (t u : String)
    (h : (t, u) ∈ flexionStep p) : ∃ href, u = flexionResolve href := by
  unfold flexionStep at h
  cases hfind : (match p.1.descendants.find? isAnchorHref with
    | some a => some a
    | none => p.2.find? isAnchorHref) with
  | none => simp only [hfind] at h; simp at h
  | some a =>
    simp only [hfind] at h
    cases ha : a.attr "href" with
    | none => simp [ha] at h
    | some href =>
      simp only [ha] at h
      split_ifs at h <;> simp at h
      exact ⟨href, h.2⟩

/-- Every url produced by the flexion_robotics.py loop body is the
resolution of some href. -/
theorem flexionFileStep_url (p : Node × List Node) (t u : String)
    (h : (t, u) ∈ flexionFileStep p) : ∃ href, u = flexionFileResolve href := by
  unfold flexionFileStep at h
  cases hfind : (match p.2.find? isAnchorHref with
    | some a => some a
    | none => p.1.descendants.find? isAnchorHref) with
  | none => simp only [hfind] at h; simp at h
  | some a =>
    simp only [hfind] at h
    split_ifs at h with hshort
    · simp at h
    · cases ha : a.attr "href" with
      | none => simp [ha] at h
      | some href =>
        simp only [ha] at h
        simp at h
        exact ⟨href, h.2⟩

/-- Every url returned by the lever loop body is the verbatim href of some
anchor inside the posting container — no resolution is applied. -/
theorem leverStep_url (post : Node) (t u : String) (h : (t, u) ∈ leverStep post) :
    ∃ link ∈ post.descendants, link.attr "href" = some u := by
  unfold leverStep at h
  cases hfind : findTag post "h5" with
  | none => simp [hfind] at h
  | some titleElem =>
    simp only [hfind] at h
    cases hlink : post.descendants.find? (isTagClass "a" "posting-title") with
    | none => simp [hlink] at h
    | some link =>
      simp only [hlink] at h
      cases ha : link.attr "href" with
      | none => simp [ha] at h
      | some href =>
        simp only [ha] at h
        split_ifs at h with hemp
        · simp at h
        · simp at h
          exact ⟨link, List.mem_of_find?_eq_some hlink, by rw [ha, h.2]⟩

/-- A lever-style listing document whose posting link is site-relative. -/
def leverRelativeDoc : Node :=
  Node.elem "body" [] []
    [Node.elem "div" ["posting"] []
      [Node.elem "h5" [] [] [Node.txt "Engineer"],
       Node.elem "a" ["posting-title"] [("href", "/jobs/1")] []]]

/-- C5, counterexample: the Lever adapter (shared by RIVR and Gravis
Robotics, and cited by the claim) performs no resolution at all — on a
posting whose href is the site-relative `/jobs/1` it returns that href
verbatim, which is not an absolute URL. -/
theorem relative_href_unresolved_counterexample :
    lever_listings leverRelativeDoc = [("Engineer", "/jobs/1")]
  ∧ strStarts "/jobs/1" "http" = false := by
  constructor
  · rfl
  · decide

/-- Left-factor prefixes survive a further append. -/
theorem strStarts_append_left (a b c : String) : strStarts (a ++ b ++ c) a = true := by
  cases a with
  | mk d1 =>
    cases b with
    | mk d2 =>
      cases c with
      | mk d3 =>
        show List.isPrefixOf d1 ((d1 ++ d2) ++ d3) = true
        rw [List.isPrefixOf_iff_prefix, List.append_assoc]
        exact List.prefix_append d1 (d2 ++ d3)

/-- C5, amended: the resolving adapters (Mimic, Hexagon Robotics,
Flyability, the Leica HTML fallback, and both Flexion versions) pass
hrefs that start with `http` through unchanged and return every other
href with the site's declared origin string prefixed; every url those
adapters return is such a resolution of some href.  The Lever listing
adapter (RIVR, Gravis Robotics) instead returns hrefs verbatim, with no
resolution. -/
theorem href_resolution_amended :
    (∀ h, strStarts h "http" = true →
      mimicResolve h = h ∧ hexagonResolve h = h ∧ flyabilityResolve h = h
      ∧ leicaResolve h = h ∧ flexionResolve h = h ∧ flexionFileResolve h = h)
  ∧ (∀ h, strStarts h "http" = false →
      strStarts (mimicResolve h) "https://www.mimicrobotics.com" = true
      ∧ strStarts (hexagonResolve h) "https://robotics.hexagon.com" = true
      ∧ strStarts (flyabilityResolve h) "https://www.flyability.com" = true
      ∧ strStarts (leicaResolve h) "https://leica-geosystems.com" = true
      ∧ strStarts (flexionResolve h) "https://flexion.ai" = true
      ∧ strStarts (flexionFileResolve h) "https://flexion.ai" = true)
  ∧ (∀ (doc : Node) (t u : String),
      ((t, u) ∈ mimic_listings doc → ∃ h, u = mimicResolve h)
      ∧ ((t, u) ∈ hexagon_listings doc → ∃ h, u = hexagonResolve h)
      ∧ ((t, u) ∈ flyability_listings doc → ∃ h, u = flyabilityResolve h)
      ∧ ((t, u) ∈ flexion_listings doc → ∃ h, u = flexionResolve h)
      ∧ ((t, u) ∈ flexionFile_listings doc → ∃ h, u = flexionFileResolve h)
      ∧ (∀ e, (t, u) ∈ leica_listings (.error e) doc → ∃ h, u = leicaResolve h))
  ∧ (∀ (doc : Node) (t u : String), (t, u) ∈ lever_listings doc →
      ∃ post ∈ findAllTagClass doc "div" "posting",
        ∃ link ∈ post.descendants, link.attr "href" = some u) := by
  refine ⟨?_, ?_, ?_, ?_⟩
  · intro h hh
    have hns := http_not_dotslash h hh
    refine ⟨?_, ?_, ?_, ?_, ?_, ?_⟩ <;>
      simp [mimicResolve, hexagonResolve, flyabilityResolve, leicaResolve,
        flexionResolve, flexionFileResolve, hh, hns.1, hns.2]
  · intro h hh
    refine ⟨?_, ?_, ?_, ?_, ?_, ?_⟩
    · simp only [mimicResolve, hh, Bool.false_eq_true, if_false]
      exact strStarts_append _ h
    · simp only [hexagonResolve, hh, Bool.false_eq_true, if_false]
      exact strStarts_append _ h
    · simp only [flyabilityResolve, hh, Bool.false_eq_true, if_false]
      exact strStarts_append _ h
    · simp only [leicaResolve, hh, Bool.false_eq_true, if_false]
      exact strStarts_append _ h
    · unfold flexionResolve
      split_ifs with h1 h2 h3
      · exact strStarts_append _ _
      · exact strStarts_append _ _
      · rw [show ("https://flexion.ai/" : String) = "https://flexion.ai" ++ "/" from by decide]
        exact strStarts_append_left _ _ _
      · simp [hh] at h3
    · unfold flexionFileResolve
      rw [if_pos (by simp [hh])]
      split_ifs with h1
      · exact strStarts_append _ _
      · rw [show ("https://flexion.ai" ++ ("/" ++ h) : String)
            = "https://flexion.ai" ++ "/" ++ h from by rw [String.append_assoc]]
        exact strStarts_append_left _ _ _
  · intro doc t u
    refine ⟨?_, ?_, ?_, ?_, ?_, ?_⟩
    · intro hmem
      rcases mem_accumFold hmem with ⟨a, _, hstep⟩
      exact mimicStep_url a t u hstep
    · intro hmem
      rcases mem_accumFold hmem with ⟨a, _, hstep⟩
      exact hexagonStep_url a t u hstep
    · intro hmem
      rcases mem_accumFold (mem_dedupBy hmem) with ⟨a, _, hstep⟩
      exact flyabilityStep_url a t u hstep
    · intro hmem
      rcases mem_accumFold (mem_dedupBy hmem) with ⟨a, _, hstep⟩
      exact flexionStep_url a t u hstep
    · intro hmem
      rcases mem_accumFold (mem_dedupBy hmem) with ⟨a, _, hstep⟩
      exact flexionFileStep_url a t u hstep
    · intro e hmem
      rcases mem_accumFold hmem with ⟨a, _, hstep⟩
      exact leicaStep_url a t u hstep
  · intro doc t u hmem
    rcases mem_accumFold hmem with ⟨post, hpost, hstep⟩
    exact ⟨post, hpost, leverStep_url post t u hstep⟩

/-- An anchor to a job posting, textually `Engineer`. -/
def jobAnchor : Node :=
  Node.elem "a" [] [("href", "/jobs/1")] [Node.txt "Engineer"]

/-- A document in which the same job anchor appears in two DOM locations
(top level and inside a card container). -/
def mimicDupDoc : Node :=
  Node.elem "body" [] [] [jobAnchor, Node.elem "div" [] [] [jobAnchor]]

/-- Witness for `href_resolution_amended` at concrete hrefs and a
concrete mimic document. -/
theorem href_resolution_amended_witness :
    strStarts "https://a.example/x" "http" = true
  ∧ mimicResolve "https://a.example/x" = "https://a.example/x"
  ∧ flexionResolve "https://a.example/x" = "https://a.example/x"
  ∧ strStarts "/jobs/1" "http" = false
  ∧ strStarts (mimicResolve "/jobs/1") "https://www.mimicrobotics.com" = true
  ∧ strStarts (flexionResolve "./careers/x") "https://flexion.ai" = true
  ∧ ("Engineer", "https://www.mimicrobotics.com/jobs/1") ∈ mimic_listings mimicDupDoc
  ∧ (∃ h, "https://www.mimicrobotics.com/jobs/1" = mimicResolve h) := by
  have h1 := href_resolution_amended.1 "https://a.example/x" (by decide)
  have h2 := href_resolution_amended.2.1 "/jobs/1" (by decide)
  have h3 := href_resolution_amended.2.1 "./careers/x" (by decide)
  have hmem : ("Engineer", "https://www.mimicrobotics.com/jobs/1")
      ∈ mimic_listings mimicDupDoc := by decide
  have h4 := (href_resolution_amended.2.2.1 mimicDupDoc "Engineer"
    "https://www.mimicrobotics.com/jobs/1").1 hmem
  exact ⟨by decide, h1.1, h1.2.2.2.2.1, by decide, h2.1, h3.2.2.2.2.1, hmem, h4⟩

/-- C8, counterexample: the Mimic adapter scans generic anchor tags and
performs no de-duplication — a document containing the same anchor in two
DOM locations yields the same `(title, url)` pair twice. -/
theorem anchor_scan_dedup_counterexample :
    mimic_listings mimicDupDoc
      = [("Engineer", "https://www.mimicrobotics.com/jobs/1"),
         ("Engineer", "https://www.mimicrobotics.com/jobs/1")]
  ∧ ¬ ((mimic_listings mimicDupDoc).map Prod.snd).Nodup := by
  constructor
  · rfl
  · decide

/-- C8, amended: of the adapters that scan generic anchors or headings,
Flyability de-duplicates by title and the two Flexion versions
de-duplicate by resulting URL, so their outputs never contain duplicates
by that key; the Mimic adapter (and the Leica HTML fallback) perform no
de-duplication, and their outputs can repeat a pair when the same anchor
appears in several DOM locations. -/
theorem anchor_scan_dedup_amended (doc : Node) :
    ((flyability_listings doc).map Prod.fst).Nodup
  ∧ ((flexion_listings doc).map Prod.snd).Nodup
  ∧ ((flexionFile_listings doc).map Prod.snd).Nodup :=
  ⟨dedupBy_nodup Prod.fst _, dedupBy_nodup Prod.snd _, dedupBy_nodup Prod.snd _⟩

/-! ## Progress accounting (C7) -/

/-- Sum of two floors is at most the floor of the sum. -/
theorem nat_div_add_div_le (a b c : ℕ) : a / c + b / c ≤ (a + b) / c := by
  rcases Nat.eq_zero_or_pos c with hc | hc
  · subst hc; simp
  · rw [Nat.le_div_iff_mul_le hc, Nat.add_mul]
    exact Nat.add_le_add (Nat.div_mul_le_self a c) (Nat.div_mul_le_self b c)

/-- The per-company progress base is monotone in the company index. -/
theorem companyBase_mono {idx idx' : ℕ} (total : ℕ) (h : idx ≤ idx') :
    companyBase idx total ≤ companyBase idx' total :=
  Nat.div_le_div_right (Nat.mul_le_mul_left 80 h)

/-- A company's closing progress does not exceed the next company's base. -/
theorem companyBase_add_range_le (idx total : ℕ) :
    companyBase idx total + companyRange total ≤ companyBase (idx + 1) total := by
  unfold companyBase companyRange
  calc 80 * idx / total + 80 / total ≤ (80 * idx + 80) / total :=
        nat_div_add_div_le _ _ _
    _ = 80 * (idx + 1) / total := by rw [Nat.mul_succ]

/-- Bases stay within the 0–80% band reserved for scraping. -/
theorem companyBase_le_80 {idx total : ℕ} (h : idx ≤ total) :
    companyBase idx total ≤ 80 := by
  unfold companyBase
  rcases Nat.eq_zero_or_pos total with h0 | hpos
  · subst h0; simp
  · calc 80 * idx / total ≤ 80 * total / total :=
        Nat.div_le_div_right (Nat.mul_le_mul_left 80 h)
    _ = 80 := Nat.mul_div_cancel 80 hpos

/-- Within a company, the fetch emission is at least the base. -/
theorem base_le_fetchProgress (base range : ℕ) :
    base ≤ fetchProgress base range :=
  Nat.le_add_right base _

/-- Within a company, the fetch emission precedes the parse emission. -/
theorem fetchProgress_le_parseProgress (base range : ℕ) :
    fetchProgress base range ≤ parseProgress base range :=
  Nat.add_le_add_left (Nat.div_le_div_right (Nat.mul_le_mul_left range (by norm_num))) base

/-- A sub-fraction of the company's range never exceeds the range. -/
theorem range_frac_le (range m : ℕ) (hm : m ≤ 100) : range * m / 100 ≤ range := by
  calc range * m / 100 ≤ range * 100 / 100 :=
        Nat.div_le_div_right (Nat.mul_le_mul_left range hm)
    _ = range := Nat.mul_div_cancel range (by norm_num)

/-- The parse emission precedes every per-job emission. -/
theorem parseProgress_le_jobProgress (base range num i : ℕ)
    (hnum : 0 < num) (hi : 1 ≤ i) :
    parseProgress base range ≤ jobProgress base range num i := by
  unfold parseProgress jobProgress
  refine Nat.add_le_add_left ?_ base
  calc range * 25 / 100 = range * 25 * num / (100 * num) :=
        (Nat.mul_div_mul_right (range * 25) 100 hnum).symm
    _ ≤ range * (25 * num + 60 * i) / (100 * num) := by
        refine Nat.div_le_div_right ?_
        rw [Nat.mul_assoc]
        exact Nat.mul_le_mul_left range (Nat.le_add_right _ _)

/-- Per-job emissions are monotone in the job index. -/
theorem jobProgress_mono (base range num : ℕ) {i i' : ℕ} (h : i ≤ i') :
    jobProgress base range num i ≤ jobProgress base range num i' := by
  unfold jobProgress
  refine Nat.add_le_add_left (Nat.div_le_div_right (Nat.mul_le_mul_left range ?_)) base
  exact Nat.add_le_add_left (Nat.mul_le_mul_left 60 h) _

/-- Per-job emissions stay within the company's allotted range. -/
theorem jobProgress_le (base range num i : ℕ) (hnum : 0 < num) (hi : i ≤ num) :
    jobProgress base range num i ≤ base + range := by
  unfold jobProgress
  refine Nat.add_le_add_left ?_ base
  calc range * (25 * num + 60 * i) / (100 * num)
      ≤ range * (100 * num) / (100 * num) := by
        refine Nat.div_le_div_right (Nat.mul_le_mul_left range ?_)
        calc 25 * num + 60 * i ≤ 25 * num + 60 * num :=
              Nat.add_le_add_left (Nat.mul_le_mul_left 60 hi) _
          _ ≤ 100 * num := by omega
    _ = range := Nat.mul_div_cancel range (Nat.mul_pos (by norm_num) hnum)

/-- The fetch emission stays within the company's allotted range. -/
theorem fetchProgress_le (base range : ℕ) :
    fetchProgress base range ≤ base + range :=
  Nat.add_le_add_left (range_frac_le range 15 (by norm_num)) base

/-- The parse emission stays within the company's allotted range. -/
theorem parseProgress_le (base range : ℕ) :
    parseProgress base range ≤ base + range :=
  Nat.add_le_add_left (range_frac_le range 25 (by norm_num)) base

/-- Sink emissions start at the 80% mark. -/
theorem le_insertProgress (n j : ℕ) : 80 ≤ insertProgress n j :=
  Nat.le_add_right 80 _

/-- Sink emissions are monotone in the record index. -/
theorem insertProgress_mono (n : ℕ) {j j' : ℕ} (h : j ≤ j') :
    insertProgress n j ≤ insertProgress n j' :=
  Nat.add_le_add_left (Nat.div_le_div_right (Nat.mul_le_mul_left 15 h)) 80

/-- Sink emissions stay at or below 100. -/
theorem insertProgress_le_100 (n : ℕ) {j : ℕ} (hj : j ≤ n) :
    insertProgress n j ≤ 100 := by
  unfold insertProgress
  have h15 : 15 * j / n ≤ 15 := by
    rcases Nat.eq_zero_or_pos n with h0 | hpos
    · subst h0; simp
    · calc 15 * j / n ≤ 15 * n / n := Nat.div_le_div_right (Nat.mul_le_mul_left 15 hj)
      _ = 15 := Nat.mul_div_cancel 15 hpos
  omega

/-- Each detail-loop iteration emits exactly one progress value, whatever
its outcome. -/
theorem processJob_pv (E : Env) (cfg : CompanyCfg) (company : String)
    (base range num i : Nat) (job : Job) :
    progressValues (processJob E cfg company base range num i job).2
      = [jobProgress base range num i] := by
  unfold processJob
  cases hf : cfg.detailFetch job.2 with
  | error e => simp
  | ok v =>
    cases hp : cfg.detailParse job.2 with
    | error e => simp
    | ok d => by_cases hd : pyStrip d ≠ "" <;> simp [hd]

/-- The detail loop emits one progress value per job, in index order. -/
theorem runJobs_pv (E : Env) (cfg : CompanyCfg) (company : String)
    (base range num : Nat) (l : List Job) : ∀ (i : Nat),
    progressValues (runJobs E cfg company base range num i l).2
      = (List.range l.length).map (fun k => jobProgress base range num (i + k)) := by
  induction l with
  | nil => intro i; rfl
  | cons j t ih =>
    intro i
    have hf : (fun k => jobProgress base range num (i + 1 + k))
        = ((fun k => jobProgress base range num (i + k)) ∘ Nat.succ) := by
      funext k
      show jobProgress base range num (i + 1 + k) = jobProgress base range num (i + (k + 1))
      have h : i + 1 + k = i + (k + 1) := by omega
      rw [h]
    simp only [runJobs, progressValues_append, processJob_pv, ih,
      List.length_cons, List.range_succ_eq_map, List.map_cons, List.map_map, hf,
      Nat.add_zero]
    rfl


/-- The possible progress traces of one company iteration: nothing
(no configuration, or listing fetch failed), the fetch emission alone
(listing parse failed), fetch then closing emission (zero postings), or
fetch, parse, one emission per job, and the closing emission. -/
theorem processCompany_pv_cases (E : Env) (total idx : Nat) (c : String) :
    progressValues (processCompany E total idx c).2 = []
  ∨ progressValues (processCompany E total idx c).2
      = [fetchProgress (companyBase idx total) (companyRange total)]
  ∨ progressValues (processCompany E total idx c).2
      = [fetchProgress (companyBase idx total) (companyRange total),
         companyBase idx total + companyRange total]
  ∨ ∃ num, 0 < num ∧ progressValues (processCompany E total idx c).2
      = [fetchProgress (companyBase idx total) (companyRange total),
         parseProgress (companyBase idx total) (companyRange total)]
        ++ (List.range num).map
            (fun k => jobProgress (companyBase idx total) (companyRange total) num (1 + k))
        ++ [companyBase idx total + companyRange total] := by
  unfold processCompany
  cases hcfg : E.companies c with
  | none => left; rfl
  | some cfg =>
    cases hnote : cfg.note
    all_goals
      cases hF : cfg.listingFetch with
      | error e => left; simp [hF, hnote]
      | ok u =>
        cases hP : cfg.listingParse with
        | error e => right; left; simp [hF, hP, hnote]
        | ok jobs =>
          by_cases hnil : jobs = []
          · right; right; left
            simp [hF, hP, hnil, hnote]
          · right; right; right
            refine ⟨jobs.length, List.length_pos.2 hnil, ?_⟩
            simp [hF, hP, hnote, hnil, runJobs_pv]

/-- Mapping a monotone function over `range` yields a sorted list. -/
theorem pairwise_le_map_range (f : Nat → Nat) (hf : Monotone f) (n : Nat) :
    (((List.range n).map f)).Pairwise (· ≤ ·) :=
  (List.pairwise_lt_range n).map f (fun _ _ hab => hf (le_of_lt hab))

/-- One company's progress emissions are sorted. -/
theorem processCompany_pv_sorted (E : Env) (total idx : Nat) (c : String) :
    (progressValues (processCompany E total idx c).2).Pairwise (· ≤ ·) := by
  rcases processCompany_pv_cases E total idx c with h | h | h | ⟨num, hnum, h⟩ <;> rw [h]
  · exact List.Pairwise.nil
  · exact List.pairwise_singleton _ _
  · exact List.pairwise_pair.2 (fetchProgress_le _ _)
  · rw [List.append_assoc, List.cons_append, List.cons_append, List.nil_append]
    refine List.Pairwise.cons ?_ (List.Pairwise.cons ?_ ?_)
    · intro b hb
      rcases List.mem_cons.1 hb with rfl | hb
      · exact fetchProgress_le_parseProgress _ _
      rcases List.mem_append.1 hb with hb | hb
      · rcases List.mem_map.1 hb with ⟨k, _, rfl⟩
        calc fetchProgress _ _ ≤ parseProgress _ _ := fetchProgress_le_parseProgress _ _
          _ ≤ _ := parseProgress_le_jobProgress _ _ num (1 + k) hnum (by omega)
      · rcases List.mem_singleton.1 hb with rfl
        exact fetchProgress_le _ _
    · intro b hb
      rcases List.mem_append.1 hb with hb | hb
      · rcases List.mem_map.1 hb with ⟨k, _, rfl⟩
        exact parseProgress_le_jobProgress _ _ num (1 + k) hnum (by omega)
      · rcases List.mem_singleton.1 hb with rfl
        exact parseProgress_le _ _
    · rw [List.pairwise_append]
      refine ⟨?_, List.pairwise_singleton _ _, ?_⟩
      · refine pairwise_le_map_range _ ?_ num
        exact monotone_nat_of_le_succ (fun k => jobProgress_mono _ _ num (by omega))
      · intro a ha b hb
        rcases List.mem_singleton.1 hb with rfl
        rcases List.mem_map.1 ha with ⟨k, hk, rfl⟩
        exact jobProgress_le _ _ num (1 + k) hnum (by have := List.mem_range.1 hk; omega)

/-- One company's progress emissions stay within its allotted band. -/
theorem processCompany_pv_bounds (E : Env) (total idx : Nat) (c : String) :
    ∀ p ∈ progressValues (processCompany E total idx c).2,
      companyBase idx total ≤ p ∧ p ≤ companyBase idx total + companyRange total := by
  rcases processCompany_pv_cases E total idx c with h | h | h | ⟨num, hnum, h⟩ <;>
    rw [h] <;> intro p hp
  · simp at hp
  · rcases List.mem_singleton.1 hp with rfl
    exact ⟨base_le_fetchProgress _ _, fetchProgress_le _ _⟩
  · rcases List.mem_cons.1 hp with rfl | hp
    · exact ⟨base_le_fetchProgress _ _, fetchProgress_le _ _⟩
    · rcases List.mem_singleton.1 hp with rfl
      exact ⟨Nat.le_add_right _ _, le_refl _⟩
  · rw [List.append_assoc, List.cons_append, List.cons_append, List.nil_append] at hp
    rcases List.mem_cons.1 hp with rfl | hp
    · exact ⟨base_le_fetchProgress _ _, fetchProgress_le _ _⟩
    rcases List.mem_cons.1 hp with rfl | hp
    · exact ⟨Nat.le_add_right _ _, parseProgress_le _ _⟩
    rcases List.mem_append.1 hp with hp | hp
    · rcases List.mem_map.1 hp with ⟨k, hk, rfl⟩
      exact ⟨Nat.le_add_right _ _,
        jobProgress_le _ _ num (1 + k) hnum (by have := List.mem_range.1 hk; omega)⟩
    · rcases List.mem_singleton.1 hp with rfl
      exact ⟨Nat.le_add_right _ _, le_refl _⟩

/-- The company loop's progress emissions are sorted and stay within the
0–80% band, each company's block starting no lower than its base. -/
theorem runCompanies_pv (E : Env) (total : Nat) : ∀ (cs : List String) (idx : Nat),
    idx + cs.length ≤ total →
    (progressValues (runCompanies E total idx cs).2).Pairwise (· ≤ ·)
  ∧ ∀ p ∈ progressValues (runCompanies E total idx cs).2,
      companyBase idx total ≤ p ∧ p ≤ 80 := by
  intro cs
  induction cs with
  | nil => intro idx _; exact ⟨List.Pairwise.nil, by simp [runCompanies]⟩
  | cons c rest ih =>
    intro idx hlen
    have hidx : idx < total := by simp at hlen; omega
    have hrec := ih (idx + 1) (by simp at hlen ⊢; omega)
    have hup : companyBase idx total + companyRange total ≤ companyBase (idx + 1) total :=
      companyBase_add_range_le idx total
    have hpc_bounds := processCompany_pv_bounds E total idx c
    have hpv : progressValues (runCompanies E total idx (c :: rest)).2
        = progressValues (processCompany E total idx c).2
          ++ progressValues (runCompanies E total (idx + 1) rest).2 := by
      simp [runCompanies]
    rw [hpv]
    constructor
    · rw [List.pairwise_append]
      refine ⟨processCompany_pv_sorted E total idx c, hrec.1, ?_⟩
      intro a ha b hb
      calc a ≤ companyBase idx total + companyRange total := (hpc_bounds a ha).2
        _ ≤ companyBase (idx + 1) total := hup
        _ ≤ b := (hrec.2 b hb).1
    · intro p hp
      rcases List.mem_append.1 hp with hp | hp
      · refine ⟨(hpc_bounds p hp).1, ?_⟩
        calc p ≤ companyBase idx total + companyRange total := (hpc_bounds p hp).2
          _ ≤ companyBase (idx + 1) total := hup
          _ ≤ 80 := companyBase_le_80 hidx
      · exact ⟨le_trans (companyBase_mono total (Nat.le_succ idx)) (hrec.2 p hp).1,
          (hrec.2 p hp).2⟩

/-- The sink phase's progress values: one per record, then exactly 100. -/
theorem pv_sinkEvents (file : Option Sheet) (b : List Rec) :
    progressValues (sinkEvents file b)
      = (List.range b.length).map (fun k => insertProgress b.length (1 + k)) ++ [100] := by
  unfold sinkEvents
  rw [sinkLoop_events]
  simp

/-- The sink phase's progress values are sorted, at least 80, and end at
100. -/
theorem sinkEvents_pv_sorted (file : Option Sheet) (b : List Rec) :
    (progressValues (sinkEvents file b)).Pairwise (· ≤ ·)
  ∧ (∀ p ∈ progressValues (sinkEvents file b), 80 ≤ p)
  ∧ (progressValues (sinkEvents file b)).getLast? = some 100 := by
  rw [pv_sinkEvents]
  refine ⟨?_, ?_, ?_⟩
  · rw [List.pairwise_append]
    refine ⟨?_, List.pairwise_singleton _ _, ?_⟩
    · refine pairwise_le_map_range _ ?_ b.length
      exact monotone_nat_of_le_succ (fun k => insertProgress_mono _ (by omega))
    · intro a ha x hx
      rcases List.mem_singleton.1 hx with rfl
      rcases List.mem_map.1 ha with ⟨k, hk, rfl⟩
      exact insertProgress_le_100 _ (by have := List.mem_range.1 hk; omega)
  · intro p hp
    rcases List.mem_append.1 hp with hp | hp
    · rcases List.mem_map.1 hp with ⟨k, _, rfl⟩
      exact le_insertProgress _ _
    · rcases List.mem_singleton.1 hp with rfl
      norm_num
  · rw [List.getLast?_append_of_ne_nil]
    · rfl
    · simp

/-- C7, amended: for every run and every selection of companies the
sequence of emitted progress values is monotonically non-decreasing, and
every successfully completing run that collected at least one record ends
its progress sequence at exactly 100.  (A successful run that collected
nothing skips the sink and never emits 100 — see the counterexample.) -/
theorem progress_monotone_and_completes (E : Env) (selected : List String)
    (file : Option Sheet) :
    (progressValues (workerRun E selected file).events).Chain' (· ≤ ·)
  ∧ (runRecords E selected ≠ [] →
      (progressValues (workerRun E selected file).events).getLast? = some 100) := by
  have hrc := runCompanies_pv E selected.length selected 0 (by simp)
  by_cases hempty : (runCompanies E selected.length 0 selected).1.isEmpty
  · constructor
    · have hpv : progressValues (workerRun E selected file).events
          = progressValues (runCompanies E selected.length 0 selected).2 := by
        simp [workerRun, hempty]
      rw [hpv]
      exact hrc.1.chain'
    · intro hne
      exact absurd (List.isEmpty_iff.1 hempty) hne
  · have hpv : progressValues (workerRun E selected file).events
        = progressValues (runCompanies E selected.length 0 selected).2
          ++ progressValues (sinkEvents file (runCompanies E selected.length 0 selected).1) := by
      simp [workerRun, hempty]
    have hsink := sinkEvents_pv_sorted file (runCompanies E selected.length 0 selected).1
    constructor
    · rw [hpv]
      refine List.Pairwise.chain' ?_
      rw [List.pairwise_append]
      refine ⟨hrc.1, hsink.1, ?_⟩
      intro a ha b hb
      exact le_trans (hrc.2 a ha).2 (hsink.2.1 b hb)
    · intro _
      rw [hpv]
      rcases hpvs : progressValues (sinkEvents file (runCompanies E selected.length 0 selected).1)
        with _ | ⟨x, xs⟩
      · rw [hpvs] at hsink
        simp at hsink
      · rw [List.getLast?_append_of_ne_nil _ (by simp), ← hpvs]
        exact hsink.2.2

/-- Environment whose single company finds zero postings: the run ends
successfully with nothing collected. -/
def noJobsEnv : Env :=
  ⟨fun _ => some ⟨.ok (), .ok [], fun _ => .ok (), fun _ => .ok "", none⟩, "01/02/2026"⟩

/-- C7, counterexample: a run that completes successfully (the terminal
event is `finished(true, …)`) but collected no records never emits 100 —
its last progress value is the final company's closing emission, here 80. -/
theorem progress_no_100_counterexample :
    (progressValues (workerRun noJobsEnv ["A"] none).events).getLast? = some 80
  ∧ (workerRun noJobsEnv ["A"] none).events.getLast?
      = some (.finished true "Scraping complete — no job descriptions were collected.") := by
  constructor
  · rfl
  · rfl

/-- Environment whose single company yields one record. -/
def oneJobEnv : Env :=
  ⟨fun _ => some ⟨.ok (), .ok [("T", "u")], fun _ => .ok (), fun _ => .ok "About T", none⟩,
   "01/02/2026"⟩

/-- Witness for `progress_monotone_and_completes` at a concrete
record-collecting run. -/
theorem progress_monotone_and_completes_witness :
    runRecords oneJobEnv ["A"] ≠ []
  ∧ (progressValues (workerRun oneJobEnv ["A"] none).events).Chain' (· ≤ ·)
  ∧ (progressValues (workerRun oneJobEnv ["A"] none).events).getLast? = some 100 := by
  have h := progress_monotone_and_completes oneJobEnv ["A"] none
  exact ⟨by decide, h.1, h.2 (by decide)⟩
